import Mathlib

/-!
Verification of the multiagents orchestration engine against its
natural-language specification.

The Lean definitions below are a shallow embedding of the Python source:
  - src/chat/router.py      (share extraction, pass detection)
  - src/chat/room.py        (persistent chat room, delivery acks)
  - src/cards/engine.py     (task-card state machine)
  - src/agents/persistent.py (crash-recovery supervisor)
  - src/agents/protocols/{claude,codex,kimi}.py (protocol adapters)

Strings are modelled as lists of characters (type Str below).  Python
regular expressions used by the source are small and fixed, so each one is
embedded as an explicit executable matching function with the exact
semantics of the CPython re module on that pattern (leftmost match,
non-greedy repetition scans for the earliest viable end, IGNORECASE
compares ASCII-lowercased characters, DOTALL lets content span lines).
Whitespace sets model the ASCII/Latin-1 part of the Python definitions,
which is the relevant fragment for every claim here.
-/

/-- Text, modelled as a list of characters. -/
abbrev Str := List Char

/-- Convert a Lean string literal into the model representation. -/
def strOf (s : String) : Str := s.toList

/-- Characters stripped by Python str.strip() and matched by regex \s
(ASCII/Latin-1 fragment). -/
def isPyWs (c : Char) : Bool :=
  c == ' ' || c == '\t' || c == '\n' || c == '\r' || c == '\x0b' || c == '\x0c'

/-- Python str.strip(): remove leading and trailing whitespace. -/
def pyStrip (s : Str) : Str :=
  ((s.dropWhile isPyWs).reverse.dropWhile isPyWs).reverse

/-- ASCII lowercasing of one character (Python str.lower / re.IGNORECASE on
ASCII patterns). -/
def lowChar (c : Char) : Char := c.toLower

/-- Python str.lower() on the ASCII fragment. -/
def pyLower (s : Str) : Str := s.map lowChar

/-- Does s start with the pattern pat?  pat is given pre-lowercased; the
comparison lowercases s, giving IGNORECASE semantics. -/
def startsWithCI : Str → Str → Bool
  | _, [] => true
  | [], _ :: _ => false
  | c :: s, p :: ps => (lowChar c == p) && startsWithCI s ps

/-- Split s at the first (leftmost) case-insensitive occurrence of pat:
returns (text before the occurrence, text after it).  none when pat does
not occur.  This is the positional scan a regex engine performs for a
literal pattern. -/
def splitFirstCI (pat : Str) : Str → Option (Str × Str)
  | [] => if pat.isEmpty then some ([], []) else none
  | c :: rest =>
    if startsWithCI (c :: rest) pat then some ([], (c :: rest).drop pat.length)
    else (splitFirstCI pat rest).map (fun pr => (c :: pr.1, pr.2))

/-- Case-insensitive substring containment (regex search on a literal). -/
def containsCI (s pat : Str) : Bool := (splitFirstCI pat s).isSome

theorem startsWithCI_length {s pat : Str} (h : startsWithCI s pat = true) :
    pat.length ≤ s.length := by
  induction pat generalizing s with
  | nil => simp
  | cons p ps ih =>
    cases s with
    | nil => simp [startsWithCI] at h
    | cons c cs =>
      simp only [startsWithCI, Bool.and_eq_true] at h
      simpa [List.length_cons, Nat.succ_le_succ_iff] using ih h.2

theorem splitFirstCI_length {pat : Str} : ∀ {s pre post : Str},
    splitFirstCI pat s = some (pre, post) →
    pre.length + pat.length + post.length = s.length := by
  intro s
  induction s with
  | nil =>
    intro pre post h
    unfold splitFirstCI at h
    split at h
    · rename_i hp
      simp at h
      obtain ⟨h1, h2⟩ := h
      subst h1; subst h2
      simp [List.isEmpty_iff.mp hp]
    · simp at h
  | cons c rest ih =>
    intro pre post h
    unfold splitFirstCI at h
    split at h
    · rename_i hs
      have hlen := startsWithCI_length hs
      simp at h
      obtain ⟨h1, h2⟩ := h
      subst h1
      subst h2
      simp [List.length_drop, List.length_cons] at *
      omega
    · rw [Option.map_eq_some'] at h
      obtain ⟨pr, hpr, heq⟩ := h
      rcases pr with ⟨a, b⟩
      cases heq
      have := ih hpr
      simp [List.length_cons] at *
      omega

/-- The remainder after a successful split is strictly shorter than the
input whenever the pattern is nonempty. -/
theorem splitFirstCI_post_lt {pat s pre post : Str} (hpat : pat ≠ [])
    (h : splitFirstCI pat s = some (pre, post)) : post.length < s.length := by
  have := splitFirstCI_length h
  have : 0 < pat.length := List.length_pos.mpr hpat
  omega

namespace Router

/-! Embedding of src/chat/router.py: detection/extraction helpers. -/

/-- The literal token an agent sends to pass its turn. -/
def passTok : Str := strOf "[PASS]"

/-- _PRIVATE_PLACEHOLDER in router.py. -/
def PLACEHOLDER : Str := strOf "(private response withheld)"

/-- Lowercased literal of the share opening tag (pattern side of
_SHARE_TAG_RE). -/
def shareOpen : Str := strOf "<share>"

/-- Lowercased literal of the share closing tag. -/
def shareClose : Str := strOf "</share>"

/-- _SHARE_TAG_RE.findall: every non-overlapping leftmost-shortest match of
the group in the pattern matching an opening share tag, any content, and a
closing share tag, case-insensitive, DOTALL.  A match starts at an opening
tag followed somewhere by a closing tag; the non-greedy group takes the
text up to the earliest closing tag; scanning resumes after that match. -/
def findSharesF : Nat → Str → List Str
  | 0, _ => []
  | fuel + 1, s =>
    match splitFirstCI shareOpen s with
    | none => []
    | some (_, afterOpen) =>
      match splitFirstCI shareClose afterOpen with
      | none => []
      | some (content, rest) =>
        content :: findSharesF fuel rest

def findShares (s : Str) : List Str := findSharesF (s.length + 1) s

/-- Does an opening thinking tag variant match here?  Returns its length.
Pattern side of _THINKING_BLOCK_RE; the two alternatives are mutually
exclusive at any one position. -/
def thinkOpen? (s : Str) : Option Nat :=
  if startsWithCI s (strOf "<thinking>") then some 10
  else if startsWithCI s (strOf "<antthinking>") then some 13
  else none

/-- Closing thinking tag variant match, with its length. -/
def thinkClose? (s : Str) : Option Nat :=
  if startsWithCI s (strOf "</thinking>") then some 11
  else if startsWithCI s (strOf "</antthinking>") then some 14
  else none

/-- Scan for the earliest closing thinking tag; return the remainder of the
text after that tag (the continuation point of the non-greedy match). -/
def findThinkClose : Str → Option Str
  | [] => none
  | c :: rest =>
    match thinkClose? (c :: rest) with
    | some n => some ((c :: rest).drop n)
    | none => findThinkClose rest

theorem thinkClose?_ge {s : Str} {n : Nat} (h : thinkClose? s = some n) :
    11 ≤ n ∧ n ≤ s.length := by
  unfold thinkClose? at h
  split at h
  · rename_i hs
    have := startsWithCI_length hs
    simp at h
    simp [strOf] at this
    omega
  · split at h
    · rename_i hs
      have := startsWithCI_length hs
      simp at h
      simp [strOf] at this
      omega
    · simp at h

theorem findThinkClose_lt {s rem : Str} (h : findThinkClose s = some rem) :
    rem.length < s.length := by
  induction s with
  | nil => simp [findThinkClose] at h
  | cons c rest ih =>
    unfold findThinkClose at h
    cases hc : thinkClose? (c :: rest) with
    | some n =>
      rw [hc] at h
      simp at h
      obtain ⟨h1, h2⟩ := thinkClose?_ge hc
      simp [← h, List.length_drop]
      omega
    | none =>
      rw [hc] at h
      have := ih h
      simp [List.length_cons]
      omega

theorem thinkOpen?_ge {s : Str} {n : Nat} (h : thinkOpen? s = some n) :
    10 ≤ n ∧ n ≤ s.length := by
  unfold thinkOpen? at h
  split at h
  · rename_i hs
    have := startsWithCI_length hs
    simp at h
    simp [strOf] at this
    omega
  · split at h
    · rename_i hs
      have := startsWithCI_length hs
      simp at h
      simp [strOf] at this
      omega
    · simp at h

/-- _THINKING_BLOCK_RE.sub("", text): remove every non-overlapping
leftmost-shortest thinking block, scanning left to right and resuming after
each removed block. -/
def removeThinkingF : Nat → Str → Str
  | 0, s => s
  | fuel + 1, s =>
    match s with
    | [] => []
    | c :: rest =>
      match thinkOpen? (c :: rest) with
      | some n =>
        match findThinkClose ((c :: rest).drop n) with
        | some rem => removeThinkingF fuel rem
        | none => c :: removeThinkingF fuel rest
      | none => c :: removeThinkingF fuel rest

def removeThinking (s : Str) : Str := removeThinkingF (s.length + 1) s

/-- detect_pass in router.py: whitespace-trimmed text equals the pass token
exactly. -/
def detect_pass (text : Str) : Bool := pyStrip text == passTok

/-- The join step of extract_shareable: strip each match, keep the nonempty
ones, join with a blank line. -/
def joinShares (ms : List Str) : Str :=
  List.intercalate (strOf "\n\n") ((ms.map pyStrip).filter (fun m => !m.isEmpty))

/-- extract_shareable in router.py, translated branch for branch. -/
def extract_shareable (text : Str) : Str :=
  if pyStrip text == passTok then passTok
  else
    let cleaned := removeThinking text
    let ms := findShares cleaned
    if ms.isEmpty then PLACEHOLDER
    else
      let shareable := joinShares ms
      if shareable.isEmpty then PLACEHOLDER else shareable

/-- The extraction result as the specification words it (claim C4):
pass token when detect_pass holds; otherwise strip thinking blocks, collect
every share match, join the trimmed non-empty ones with a blank line, and
fall back to the placeholder when no match is found or all are empty. -/
def extractShareableSpec (text : Str) : Str :=
  if detect_pass text then passTok
  else
    let joined := joinShares (findShares (removeThinking text))
    if joined.isEmpty then PLACEHOLDER else joined

end Router

theorem dropWhile_length_le (p : Char → Bool) (l : Str) :
    (l.dropWhile p).length ≤ l.length := by
  induction l with
  | nil => simp
  | cons c rest ih =>
    by_cases h : p c
    · simp [List.dropWhile, h]
      omega
    · simp [List.dropWhile, h]

namespace Cards

/-! Embedding of src/cards/engine.py and src/cards/models.py. -/

/-- CardStatus in models.py. -/
inductive CardStatus
  | backlog | coordinating | planning | reviewing | implementing | done
deriving DecidableEq, Repr

/-- CardPhaseEntry in models.py (the wall-clock timestamp field is not part
of the model). -/
structure CardPhaseEntry where
  phase : CardStatus
  agent : Str
  content : Str
deriving DecidableEq, Repr

/-- Card in models.py (created_at omitted, as for timestamps). -/
structure Card where
  id : Str
  title : Str
  description : Str
  status : CardStatus
  planner : Str
  implementer : Str
  reviewer : Str
  coordinator : Str
  coordination_stage : Str
  previous_phase : Option CardStatus
  history : List CardPhaseEntry
deriving DecidableEq, Repr

/-- detect_done in engine.py: _DONE_RE.search, a case-insensitive literal
substring search. -/
def detect_done (text : Str) : Bool := containsCI text (strOf "[done]")

/-- Word characters of regex \w (ASCII fragment). -/
def isWordChar (c : Char) : Bool := c.isAlphanum || c == '_'

/-- Try the role-word alternation of _ROLE_PATTERN at the current position;
the four alternatives are mutually exclusive, tried in source order.
Returns the canonical lowercased role name and the remainder. -/
def roleWord? (s : Str) : Option (Str × Str) :=
  if startsWithCI s (strOf "coordinator") then some (strOf "coordinator", s.drop 11)
  else if startsWithCI s (strOf "planner") then some (strOf "planner", s.drop 7)
  else if startsWithCI s (strOf "implementer") then some (strOf "implementer", s.drop 11)
  else if startsWithCI s (strOf "reviewer") then some (strOf "reviewer", s.drop 8)
  else none

/-- One attempted match of the pattern role \s* : \s* @ \w+ at the current
position, as in _parse_roles.  Returns ((lowercased role, lowercased agent),
remainder after the match). -/
def matchRoleAt (s : Str) : Option ((Str × Str) × Str) :=
  match roleWord? s with
  | none => none
  | some (role, r1) =>
    match r1.dropWhile isPyWs with
    | ':' :: r3 =>
      match r3.dropWhile isPyWs with
      | '@' :: r5 =>
        let w := r5.takeWhile isWordChar
        if w.isEmpty then none
        else some ((role, pyLower w), r5.drop w.length)
      | _ => none
    | _ => none

theorem roleWord?_lt {s role r1 : Str} (h : roleWord? s = some (role, r1)) :
    r1.length + 7 ≤ s.length := by
  unfold roleWord? at h
  split at h
  · rename_i hs
    have := startsWithCI_length hs
    simp [strOf] at this
    simp at h
    simp [← h.2, List.length_drop]
    omega
  · split at h
    · rename_i hs
      have := startsWithCI_length hs
      simp [strOf] at this
      simp at h
      simp [← h.2, List.length_drop]
      omega
    · split at h
      · rename_i hs
        have := startsWithCI_length hs
        simp [strOf] at this
        simp at h
        simp [← h.2, List.length_drop]
        omega
      · split at h
        · rename_i hs
          have := startsWithCI_length hs
          simp [strOf] at this
          simp at h
          simp [← h.2, List.length_drop]
          omega
        · simp at h

theorem matchRoleAt_lt {s : Str} {rm : Str × Str} {after : Str}
    (h : matchRoleAt s = some (rm, after)) : after.length < s.length := by
  unfold matchRoleAt at h
  split at h
  · simp at h
  · rename_i role r1 hw
    have h1 := roleWord?_lt hw
    have h2 := dropWhile_length_le isPyWs r1
    split at h
    · rename_i r3 hd
      have h3 := dropWhile_length_le isPyWs r3
      split at h
      · rename_i r5 hd2
        by_cases he : (List.takeWhile isWordChar r5).isEmpty
        · simp [he] at h
        · simp [he] at h
          have h4 : after.length ≤ r5.length := by
            simp [← h.2, List.length_drop]
          have h5 : r3.length < r1.length := by
            rw [hd] at h2
            simp at h2
            omega
          have h6 : r5.length < r3.length := by
            rw [hd2] at h3
            simp at h3
            omega
          omega
      · simp at h
    · simp at h

/-- re.finditer over the text: leftmost non-overlapping matches, resuming
after each match, advancing one character on failure. -/
def findRoleMatchesF : Nat → Str → List (Str × Str)
  | 0, _ => []
  | fuel + 1, s =>
    match s with
    | [] => []
    | c :: rest =>
      match matchRoleAt (c :: rest) with
      | some (rm, after) => rm :: findRoleMatchesF fuel after
      | none => findRoleMatchesF fuel rest

def findRoleMatches (s : Str) : List (Str × Str) := findRoleMatchesF (s.length + 1) s

/-- Python dict insertion/overwrite. -/
def upsert (m : List (Str × Str)) (k v : Str) : List (Str × Str) :=
  if m.any (fun p => p.1 == k) then
    m.map (fun p => if p.1 == k then (k, v) else p)
  else m ++ [(k, v)]

/-- _parse_roles in engine.py: role -> agent map, later matches overwriting
earlier ones. -/
def _parse_roles (text : Str) : List (Str × Str) :=
  (findRoleMatches text).foldl (fun m rv => upsert m rv.1 rv.2) []

/-- setattr(card, role, agent) for one parsed role entry; the keys produced
by _parse_roles are exactly the four role fields. -/
def applyRole (c : Card) (rv : Str × Str) : Card :=
  if rv.1 == strOf "coordinator" then { c with coordinator := rv.2 }
  else if rv.1 == strOf "planner" then { c with planner := rv.2 }
  else if rv.1 == strOf "implementer" then { c with implementer := rv.2 }
  else if rv.1 == strOf "reviewer" then { c with reviewer := rv.2 }
  else c

def applyRoles (c : Card) (roles : List (Str × Str)) : Card :=
  roles.foldl applyRole c

/-- Which prompt builder on_agent_completed / start_card invokes, with the
feedback argument where the builder receives one.  The prompt text itself is
presentation and is not modelled. -/
inductive Prompt
  | coordinating
  | planning
  | review (content : Str)
  | implementation
  | rejection (feedback : Str)
  | coordinationDecision (content : Str)
deriving DecidableEq, Repr

/-- create_card in engine.py; the uuid-derived id is a parameter. -/
def create_card (id title description planner implementer reviewer coordinator : Str) : Card :=
  { id := id, title := title, description := description,
    status := .backlog,
    planner := pyLower planner, implementer := pyLower implementer,
    reviewer := pyLower reviewer, coordinator := pyLower coordinator,
    coordination_stage := [], previous_phase := none, history := [] }

/-- start_card in engine.py: backlog to coordinating (coordinator set) or
planning; any other source status raises ValueError. -/
def start_card (c : Card) : Except Str (Card × Prompt) :=
  if c.status ≠ CardStatus.backlog then
    .error (strOf "Can only start a card in backlog")
  else if !c.coordinator.isEmpty then
    .ok ({ c with
            status := .coordinating,
            coordination_stage := strOf "initial",
            previous_phase := none }, .coordinating)
  else
    .ok ({ c with status := .planning, previous_phase := none }, .planning)

/-- on_agent_completed in engine.py, translated branch for branch.  The
history entry is appended first; the status dispatch follows the source's
equality tests on CardStatus, written as a match on the enum. -/
def on_agent_completed (c0 : Card) (agent content : Str) : Card × Option Prompt :=
  let entry : CardPhaseEntry :=
    { phase := c0.status, agent := pyLower agent, content := content }
  let c : Card := { c0 with history := c0.history ++ [entry] }
  let done := detect_done content
  match c0.status with
  | .coordinating =>
    if c.coordination_stage == strOf "initial" then
      if done then
        let c := applyRoles c (_parse_roles content)
        ({ c with status := .planning, coordination_stage := [] }, some .planning)
      else (c, none)
    else if c.coordination_stage == strOf "plan_decision" then
      if done then
        ({ c with status := .implementing, coordination_stage := [] }, some .implementation)
      else
        ({ c with status := .planning, coordination_stage := [] }, some (.rejection content))
    else if c.coordination_stage == strOf "impl_decision" then
      if done then
        ({ c with status := .done, coordination_stage := [] }, none)
      else
        ({ c with status := .implementing, coordination_stage := [] }, some (.rejection content))
    else (c, none)
  | .planning =>
    if done then
      ({ c with previous_phase := some .planning, status := .reviewing }, some (.review content))
    else (c, none)
  | .implementing =>
    if done then
      ({ c with previous_phase := some .implementing, status := .reviewing }, some (.review content))
    else (c, none)
  | .reviewing =>
    if !c.coordinator.isEmpty then
      let stage :=
        if c.previous_phase == some CardStatus.planning then strOf "plan_decision"
        else strOf "impl_decision"
      ({ c with status := .coordinating, coordination_stage := stage },
        some (.coordinationDecision content))
    else if done then
      if c.previous_phase == some CardStatus.planning then
        ({ c with status := .implementing }, some .implementation)
      else (c, none)
    else
      let previous := c.previous_phase.getD .planning
      ({ c with status := previous, previous_phase := none }, some (.rejection content))
  | _ => (c, none)

/-- The optional field updates a single update_card call applies (status and
previous_phase already converted from their string spellings, as the source
does with CardStatus(value)). -/
structure CardUpdate where
  title : Option Str := none
  description : Option Str := none
  status : Option CardStatus := none
  planner : Option Str := none
  implementer : Option Str := none
  reviewer : Option Str := none
  coordinator : Option Str := none
  coordination_stage : Option Str := none
  previous_phase : Option (Option CardStatus) := none

/-- update_card in engine.py: setattr for each supplied field. -/
def update_card (c : Card) (u : CardUpdate) : Card :=
  { c with
    title := u.title.getD c.title,
    description := u.description.getD c.description,
    status := u.status.getD c.status,
    planner := u.planner.getD c.planner,
    implementer := u.implementer.getD c.implementer,
    reviewer := u.reviewer.getD c.reviewer,
    coordinator := u.coordinator.getD c.coordinator,
    coordination_stage := u.coordination_stage.getD c.coordination_stage,
    previous_phase := u.previous_phase.getD c.previous_phase }

/-- mark_done in engine.py: reviewing to done, else ValueError. -/
def mark_done (c : Card) : Except Str Card :=
  if c.status ≠ CardStatus.reviewing then
    .error (strOf "Can only mark done from reviewing")
  else .ok { c with status := .done }

/-- Cards reachable through every CardEngine operation named by claim C8,
update_card included. -/
inductive ReachAll : Card → Prop
  | create (id title description planner implementer reviewer coordinator : Str) :
      ReachAll (create_card id title description planner implementer reviewer coordinator)
  | start {c c' : Card} {p : Prompt} :
      ReachAll c → start_card c = .ok (c', p) → ReachAll c'
  | complete {c c' : Card} {a t : Str} {p : Option Prompt} :
      ReachAll c → on_agent_completed c a t = (c', p) → ReachAll c'
  | update {c : Card} (u : CardUpdate) : ReachAll c → ReachAll (update_card c u)
  | markDone {c c' : Card} : ReachAll c → mark_done c = .ok c' → ReachAll c'

/-- Cards reachable through the lifecycle operations only (no update_card). -/
inductive ReachLife : Card → Prop
  | create (id title description planner implementer reviewer coordinator : Str) :
      ReachLife (create_card id title description planner implementer reviewer coordinator)
  | start {c c' : Card} {p : Prompt} :
      ReachLife c → start_card c = .ok (c', p) → ReachLife c'
  | complete {c c' : Card} {a t : Str} {p : Option Prompt} :
      ReachLife c → on_agent_completed c a t = (c', p) → ReachLife c'
  | markDone {c c' : Card} : ReachLife c → mark_done c = .ok c' → ReachLife c'

/-- The coordination-stage invariant of claim C8. -/
def StageInv (c : Card) : Prop :=
  c.status = CardStatus.coordinating →
    c.coordination_stage = strOf "initial" ∨
    c.coordination_stage = strOf "plan_decision" ∨
    c.coordination_stage = strOf "impl_decision"

end Cards

/-! JSON values: the parsed form of one NDJSON wire line, as the adapters
see it after json.loads. -/
inductive J where
  | null
  | jb (v : Bool)
  | jn (v : Int)
  | js (v : Str)
  | jarr (xs : List J)
  | jobj (fields : List (Str × J))

/-- Dictionary lookup on an object; none for missing keys or non-objects
(Python dict.get default None). -/
def J.lookup (o : J) (k : Str) : Option J :=
  match o with
  | .jobj fields => (fields.find? (fun p => p.1 == k)).map Prod.snd
  | _ => none

/-- obj.get(k, default). -/
def J.getD (o : J) (k : Str) (d : J) : J := (o.lookup k).getD d

/-- obj.get(k, "") at a position where the source then uses the value as a
string: a present string value is returned, anything else behaves as the
empty-string default (the claims never exercise the ill-typed case, where
CPython would either compare unequal or raise). -/
def J.getS (o : J) (k : Str) : Str :=
  match o.lookup k with
  | some (.js v) => v
  | _ => []

/-- Python truthiness of a JSON value. -/
def J.truthy : J → Bool
  | .null => false
  | .jb v => v
  | .jn v => v != 0
  | .js v => !v.isEmpty
  | .jarr xs => !xs.isEmpty
  | .jobj fs => !fs.isEmpty

/-! The AgentEvent union of src/agents/protocols/base.py. -/
inductive AgentEvent where
  | textDelta (text : Str)
  | thinkingDelta (text : Str)
  | toolBadge (label detail : Str)
  | toolOutput (tool_name text : Str)
  | toolResult (tool_name : Str) (success : Bool) (output : Str)
  | turnComplete (text : Str) (session_id : Option Str) (success : Bool) (error : Option Str)
  | permissionRequest (request_id tool_name : Str) (tool_input : J) (description : Str)
  | processRestarted (reason : Str) (retry : Nat)

def AgentEvent.isTurnComplete : AgentEvent → Bool
  | .turnComplete _ _ _ _ => true
  | _ => false

namespace Room

/-! Embedding of the delivery-acknowledgement state of src/chat/room.py
(_ack_delivery, lines 197-221).  delivery_pending maps a delivery id to the
set of recipients that have not acknowledged yet; the map is modelled as an
association list and the set as its list of members. -/

/-- The AgentDeliveryAcked chat event payload. -/
structure AckEvent where
  delivery_id : Str
  recipient : Str
  sender : Str
  round_number : Option Nat
deriving DecidableEq, Repr

abbrev PendingMap := List (Str × List Str)

def pendingLookup (m : PendingMap) (d : Str) : Option (List Str) :=
  (m.find? (fun p => p.1 == d)).map Prod.snd

/-- dict.pop(delivery_id, None). -/
def removePending (m : PendingMap) (d : Str) : PendingMap :=
  m.filter (fun p => p.1 != d)

/-- pending.discard(recipient) on the set stored under d. -/
def discardRecipient (m : PendingMap) (d r : Str) : PendingMap :=
  m.map (fun p => if p.1 == d then (p.1, p.2.filter (fun x => x != r)) else p)

/-- _ack_delivery in room.py: emits an AgentDeliveryAcked only when the
delivery id is truthy, known, and the recipient is still pending; removes
the recipient, and drops the whole entry once its set empties.  Returns the
new map and the emitted event, if any. -/
def _ack_delivery (m : PendingMap) (delivery_id : Option Str)
    (recipient sender : Str) (round_number : Option Nat) :
    PendingMap × Option AckEvent :=
  match delivery_id with
  | none => (m, none)
  | some d =>
    if d.isEmpty then (m, none)
    else
      match pendingLookup m d with
      | none => (m, none)
      | some pending =>
        if pending.isEmpty || !pending.contains recipient then (m, none)
        else
          let m' := discardRecipient m d recipient
          let ev : AckEvent :=
            { delivery_id := d, recipient := recipient, sender := sender,
              round_number := round_number }
          if ((pendingLookup m' d).getD []).isEmpty then (removePending m' d, some ev)
          else (m', some ev)

/-- One queued call to _ack_delivery. -/
structure AckCall where
  delivery_id : Option Str
  recipient : Str
  sender : Str
  round_number : Option Nat

/-- A sequence of _ack_delivery calls, collecting the emitted events. -/
def runAcks (m : PendingMap) : List AckCall → PendingMap × List AckEvent
  | [] => (m, [])
  | c :: cs =>
    let (m', ev) := _ack_delivery m c.delivery_id c.recipient c.sender c.round_number
    let (m'', evs) := runAcks m' cs
    (m'', ev.toList ++ evs)

end Room

namespace Persistent

/-! Embedding of PersistentAgent.send_and_stream (src/agents/persistent.py,
lines 117-151).  One iteration of the retry loop interacts with the
subprocess: the model represents that interaction by its outcome, an
AttemptResult: either read_events finished normally with the listed events,
or an exception of one of the caught kinds (BrokenPipeError,
ConnectionResetError, ProcessLookupError, OSError, RuntimeError) interrupted
the attempt after the listed events had been yielded (events is empty when
ensure_running, the handshake, or send_message itself failed). -/

inductive AttemptResult where
  | ok (events : List AgentEvent)
  | exn (events : List AgentEvent) (reason : Str)

/-- Observable actions of one send_and_stream call, in order.  send marks
the start of an attempt (ensure_running + protocol handshake +
send_message of the same prompt); killStale is the kill-if-alive cleanup
before the next respawn; raiseErr is the exception propagating to the
caller. -/
inductive SupAction where
  | send (prompt : Str)
  | yieldEv (e : AgentEvent)
  | sleep (seconds : Nat)
  | killStale
  | raiseErr (reason : Str)

def MAX_RETRIES : Nat := 3

def BACKOFF_BASE : Nat := 1

def attemptEvents : AttemptResult → List AgentEvent
  | .ok evs => evs
  | .exn evs _ => evs

/-- Does the attempt fail, and with which error?  A normal read_events end
without any TurnComplete raises RuntimeError("turn ended without completion
marker"), which the same except clause catches. -/
def attemptFail? : AttemptResult → Option Str
  | .ok evs =>
    if evs.any AgentEvent.isTurnComplete then none
    else some (strOf "turn ended without completion marker")
  | .exn _ r => some r

/-- The retry loop of send_and_stream: retries counts failures so far; on
failure number n (n smaller or equal to MAX_RETRIES) the supervisor yields
ProcessRestarted(retry := n), sleeps BACKOFF_BASE * 2 ^ (n - 1) seconds,
kills the stale process, and retries; the failure after that propagates. -/
def sendLoop (prompt : Str) : Nat → List AttemptResult → List SupAction
  | _, [] => []
  | retries, a :: rest =>
    let yields := (attemptEvents a).map SupAction.yieldEv
    match attemptFail? a with
    | none => SupAction.send prompt :: yields
    | some reason =>
      if retries + 1 > MAX_RETRIES then
        SupAction.send prompt :: yields ++ [SupAction.raiseErr reason]
      else
        SupAction.send prompt :: yields ++
          [SupAction.yieldEv (.processRestarted reason (retries + 1)),
           SupAction.sleep (BACKOFF_BASE * 2 ^ (retries + 1 - 1)),
           SupAction.killStale] ++
          sendLoop prompt (retries + 1) rest

/-- send_and_stream(prompt), driven by the scripted attempt outcomes. -/
def send_and_stream (prompt : Str) (attempts : List AttemptResult) : List SupAction :=
  sendLoop prompt 0 attempts

/-- The actions produced by a prefix of failing attempts, the first failure
being number start+1. -/
def failTrace (prompt : Str) : Nat → List AttemptResult → List SupAction
  | _, [] => []
  | start, f :: fs =>
    SupAction.send prompt :: (attemptEvents f).map SupAction.yieldEv ++
      [SupAction.yieldEv (.processRestarted ((attemptFail? f).getD []) (start + 1)),
       SupAction.sleep (BACKOFF_BASE * 2 ^ start),
       SupAction.killStale] ++
      failTrace prompt (start + 1) fs

end Persistent

/-! Case-sensitive scanning helpers (Python str.replace, str.startswith). -/

def startsWithCS : Str → Str → Bool
  | _, [] => true
  | [], _ :: _ => false
  | c :: s, p :: ps => (c == p) && startsWithCS s ps

theorem startsWithCS_length {s pat : Str} (h : startsWithCS s pat = true) :
    pat.length ≤ s.length := by
  induction pat generalizing s with
  | nil => simp
  | cons p ps ih =>
    cases s with
    | nil => simp [startsWithCS] at h
    | cons c cs =>
      simp only [startsWithCS, Bool.and_eq_true] at h
      simpa [List.length_cons, Nat.succ_le_succ_iff] using ih h.2

/-- Python s.replace(pat, ""): remove every non-overlapping occurrence of
pat, scanning left to right. -/
def pyRemoveAllF (pat : Str) : Nat → Str → Str
  | 0, s => s
  | fuel + 1, s =>
    match s with
    | [] => []
    | c :: rest =>
      if !pat.isEmpty && startsWithCS (c :: rest) pat then
        pyRemoveAllF pat fuel ((c :: rest).drop pat.length)
      else c :: pyRemoveAllF pat fuel rest

def pyRemoveAll (pat : Str) (s : Str) : Str := pyRemoveAllF pat (s.length + 1) s

/-- Outcome of a read_events run: the generator either terminated normally
or raised with the given message.  The events yielded before the outcome are
reported alongside. -/
inductive ReadOutcome where
  | completed
  | failed (reason : Str)
deriving DecidableEq, Repr

namespace Claude

/-! Embedding of src/agents/protocols/claude.py. -/

/-- Mutable adapter state relevant to read_events. -/
structure State where
  session_id : Option Str := none
  last_cumulative : Str := []
  last_thinking : Str := []
  seen_tools : Nat := 0
  seen_server_tools : Nat := 0
  seen_results : Nat := 0
  last_message_id : Option Str := none

/-- _reset_turn_state. -/
def resetTurn (st : State) : State :=
  { st with last_cumulative := [], last_thinking := [],
            seen_tools := 0, seen_server_tools := 0, seen_results := 0,
            last_message_id := none }

/-- _short_path in agents/base.py; home is os.path.expanduser of the tilde,
passed as a parameter of the model. -/
def _short_path (home : Str) (p : Str) : Str :=
  if p.isEmpty then []
  else if startsWithCS p home then '~' :: p.drop home.length
  else p

/-- A present, truthy string value (the "or" chain in _extract_tool_detail
skips missing keys and empty strings). -/
def getTruthyS (o : J) (k : Str) : Option Str :=
  match o.lookup k with
  | some (.js v) => if v.isEmpty then none else some v
  | _ => none

/-- _extract_tool_detail in agents/base.py. -/
def _extract_tool_detail (home : Str) (params : J) : Str :=
  let raw :=
    match getTruthyS params (strOf "path") with
    | some v => v
    | none =>
      match getTruthyS params (strOf "file_path") with
      | some v => v
      | none => params.getS (strOf "command")
  _short_path home raw

/-- obj.get(key, fallback) where a present string value wins and a missing
key yields the fallback. -/
def getSD (o : J) (k : Str) (d : Str) : Str :=
  match o.lookup k with
  | some (.js v) => v
  | _ => d

/-- Content blocks of the given type. -/
def blocksOf (content : List J) (ty : Str) : List J :=
  content.filter (fun p => p.getS (strOf "type") == ty)

/-- The server-tool block kinds recognised by the adapter. -/
def serverToolTypes : List Str :=
  [strOf "server_tool_use", strOf "web_search_tool_use",
   strOf "code_execution_tool_use", strOf "mcp_tool_use"]

/-- The result block kinds recognised by the adapter. -/
def resultTypes : List Str :=
  [strOf "tool_result", strOf "server_tool_result", strOf "web_search_tool_result",
   strOf "code_execution_tool_result", strOf "mcp_tool_result"]

/-- Badge for one new server-tool block. -/
def serverToolBadge (st : J) : AgentEvent :=
  let ty := st.getS (strOf "type")
  if ty == strOf "web_search_tool_use" then
    .toolBadge (strOf "Search") ((st.getS (strOf "query")).take 80)
  else if ty == strOf "code_execution_tool_use" then
    .toolBadge (strOf "Code") (st.getS (strOf "language"))
  else if ty == strOf "mcp_tool_use" then
    let name := st.getS (strOf "name")
    let server := st.getS (strOf "server_name")
    let label := if !server.isEmpty then server ++ [ '/' ] ++ name else name
    .toolBadge (strOf "MCP") (label.take 80)
  else
    .toolBadge (getSD st (strOf "name") ty) []

/-- ToolResult event for one new result block. -/
def toolResultEvent (tr : J) : AgentEvent :=
  let ty := tr.getS (strOf "type")
  let isErr := (tr.getD (strOf "is_error") (.jb false)).truthy
  let toolName := pyRemoveAll (strOf "_result") ty
  let output :=
    match tr.lookup (strOf "content") with
    | some (.js raw) => raw.take 300
    | some (.jarr parts) =>
      (List.intercalate (strOf " ")
        ((parts.filter (fun p => p.getS (strOf "type") == strOf "text")).map
          (fun p => (p.getS (strOf "text")).take 100))).take 300
    | _ => []
  .toolResult toolName (!isErr) output

/-- PermissionRequest event for one permission denial reported on the
result event. -/
def denialEvent (d : J) : AgentEvent :=
  .permissionRequest (d.getS (strOf "tool_use_id")) (d.getS (strOf "tool_name"))
    (d.getD (strOf "tool_input") (.jobj []))
    (strOf "Claude wants to use " ++ getSD d (strOf "tool_name") (strOf "unknown"))

/-- The content blocks of an assistant message (message.get("content") with
a list value, else no blocks). -/
def msgContent (msg : J) : List J :=
  match msg.lookup (strOf "content") with
  | some (.jarr xs) => xs
  | _ => []

/-- The cumulative text of an assistant message: the concatenated text of
its text blocks. -/
def msgCumulative (msg : J) : Str :=
  ((blocksOf (msgContent msg) (strOf "text")).map
    (fun p => p.getS (strOf "text"))).flatten

/-- The reset the adapter performs when a fresh message id appears
(claude.py lines 120-129). -/
def resetForId (st : State) (mid : Str) : State :=
  { st with last_message_id := some mid, last_cumulative := [],
            last_thinking := [], seen_tools := 0,
            seen_server_tools := 0, seen_results := 0 }

/-- The thinking-delta block of the assistant branch. -/
def thinkStep (st : State) (content : List J) : List AgentEvent × State :=
  let thinkingParts := (blocksOf content (strOf "thinking")).map
    (fun p => p.getS (strOf "thinking"))
  if !thinkingParts.isEmpty then
    let cumulativeThinking := thinkingParts.flatten
    let delta := cumulativeThinking.drop st.last_thinking.length
    (if !(pyStrip delta).isEmpty then [AgentEvent.thinkingDelta delta] else [],
     { st with last_thinking := cumulativeThinking })
  else ([], st)

/-- The tool-badge block of the assistant branch. -/
def toolStep (home : Str) (st : State) (content : List J) :
    List AgentEvent × State :=
  let tools := blocksOf content (strOf "tool_use")
  ((tools.drop st.seen_tools).map (fun t =>
      AgentEvent.toolBadge (t.getS (strOf "name"))
        (_extract_tool_detail home (t.getD (strOf "input") (.jobj [])))),
   { st with seen_tools := tools.length })

/-- The server-tool-badge block of the assistant branch. -/
def serverStep (st : State) (content : List J) : List AgentEvent × State :=
  let serverTools := content.filter
    (fun p => serverToolTypes.contains (p.getS (strOf "type")))
  ((serverTools.drop st.seen_server_tools).map serverToolBadge,
   { st with seen_server_tools := serverTools.length })

/-- The tool-result block of the assistant branch. -/
def resultStep (st : State) (content : List J) : List AgentEvent × State :=
  let results := content.filter
    (fun p => resultTypes.contains (p.getS (strOf "type")))
  ((results.drop st.seen_results).map toolResultEvent,
   { st with seen_results := results.length })

/-- The text-delta block of the assistant branch (claude.py lines 191-198):
emit exactly the suffix of the cumulative text past the last seen length. -/
def textStep (st : State) (content : List J) : List AgentEvent × State :=
  let texts := (blocksOf content (strOf "text")).map (fun p => p.getS (strOf "text"))
  if !texts.isEmpty then
    let cumulative := texts.flatten
    let delta := cumulative.drop st.last_cumulative.length
    (if !delta.isEmpty then [AgentEvent.textDelta delta] else [],
     { st with last_cumulative := cumulative })
  else ([], st)

/-- Processing of one assistant line: the adapter's cumulative-delta logic
(claude.py lines 113-212), in source order: message-id reset, thinking
delta, tool badges, server-tool badges, tool results, text delta. -/
def assistantLine (home : Str) (st : State) (msg : J) :
    List AgentEvent × State :=
  let content := msgContent msg
  if content.isEmpty then ([], st)
  else
    let mid := msg.getS (strOf "id")
    let st :=
      if !mid.isEmpty && some mid != st.last_message_id then resetForId st mid
      else st
    let tk := thinkStep st content
    let tl := toolStep home tk.2 content
    let sv := serverStep tl.2 content
    let rs := resultStep sv.2 content
    let tx := textStep rs.2 content
    (tk.1 ++ (tl.1 ++ (sv.1 ++ (rs.1 ++ tx.1))), tx.2)

/-- Processing of one parsed stdout line inside read_events.  Returns the
events the line yields, the successor state, and whether the turn finished
(the result event). -/
def step (home : Str) (st : State) (obj : J) :
    List AgentEvent × State × Bool :=
  let eventType := obj.getS (strOf "type")
  if eventType == strOf "system" then
    if obj.getS (strOf "subtype") == strOf "compact_boundary" then
      ([.toolBadge (strOf "Compacting") []], st, false)
    else ([], st, false)
  else if eventType == strOf "result" then
    let sid := match obj.lookup (strOf "session_id") with
      | some (.js v) => some v
      | _ => none
    let st := { st with session_id := sid }
    let denials := match obj.lookup (strOf "permission_denials") with
      | some (.jarr xs) => xs
      | _ => []
    (denials.map denialEvent ++
      [.turnComplete (obj.getS (strOf "result")) st.session_id true none],
     st, true)
  else if eventType == strOf "assistant" then
    let msg := obj.getD (strOf "message") (.jobj [])
    let r := assistantLine home st msg
    (r.1, r.2, false)
  else ([], st, false)

/-- read_events after the initial _reset_turn_state, over the remaining
parsed stdout lines: events accumulate line by line; reading past the last
line without a result event is the fatal protocol error. -/
def readLoop (home : Str) (st : State) : List J → List AgentEvent × ReadOutcome
  | [] => ([], .failed (strOf "claude process ended before result event"))
  | l :: rest =>
    let r := step home st l
    if r.2.2 then (r.1, .completed)
    else (r.1 ++ (readLoop home r.2.1 rest).1, (readLoop home r.2.1 rest).2)

/-- read_events in claude.py: reset the per-turn state, then scan lines. -/
def read_events (home : Str) (st : State) (lines : List J) :
    List AgentEvent × ReadOutcome :=
  readLoop home (resetTurn st) lines

end Claude

/-- Case-sensitive split at the first occurrence of pat. -/
def splitFirstCS (pat : Str) : Str → Option (Str × Str)
  | [] => if pat.isEmpty then some ([], []) else none
  | c :: rest =>
    if startsWithCS (c :: rest) pat then some ([], (c :: rest).drop pat.length)
    else (splitFirstCS pat rest).map (fun pr => (c :: pr.1, pr.2))

namespace Codex

/-! Embedding of src/agents/protocols/codex.py. -/

structure State where
  thread_id : Option Str := none
  turn_id : Option Str := none

/-- _extract_file_change_label: PatchChangeKind object with a type field,
or a legacy plain string. -/
def _extract_file_change_label (kind : J) : Str :=
  let t := match kind with
    | .jobj _ => getSD' kind (strOf "type") (strOf "update")
    | .js v => v
    | _ => []
  if t == strOf "add" then strOf "Write" else strOf "Update"
where
  getSD' (o : J) (k d : Str) : Str :=
    match o.lookup k with
    | some (.js v) => v
    | _ => d

/-- Python strip of quote characters on both ends (cmd.strip of the two
quote characters). -/
def stripQuotes (s : Str) : Str :=
  let isQ := fun (c : Char) => c == '\'' || c == '"'
  ((s.dropWhile isQ).reverse.dropWhile isQ).reverse

/-- The command shortening applied before a Run badge: take the text after
the shell -lc marker, strip quotes, elide past 80 characters. -/
def shortCmd (cmd : Str) : Str :=
  let cmd := match splitFirstCS (strOf " -lc ") cmd with
    | some (_, after) => stripQuotes after
    | none => cmd
  if cmd.length > 80 then cmd.take 80 ++ strOf "..." else cmd

/-- Badges for one fileChange change entry. -/
def fileChangeBadge (home : Str) (ch : J) : AgentEvent :=
  .toolBadge (_extract_file_change_label (ch.getD (strOf "kind") (.jobj [])))
    (Claude._short_path home (ch.getS (strOf "path")))

/-- Events for an item/started notification, by item type. -/
def itemStartedEvents (home : Str) (item : J) : List AgentEvent :=
  let itype := item.getS (strOf "type")
  if itype == strOf "commandExecution" then
    [.toolBadge (strOf "Run") (shortCmd (item.getS (strOf "command")))]
  else if itype == strOf "mcpToolCall" then
    let tool := item.getS (strOf "tool")
    let server := item.getS (strOf "server")
    let label := if !server.isEmpty then server ++ [ '/' ] ++ tool else tool
    [.toolBadge (strOf "MCP") (label.take 80)]
  else if itype == strOf "webSearch" then
    [.toolBadge (strOf "Search") ((item.getS (strOf "query")).take 80)]
  else if itype == strOf "reasoning" then
    [.toolBadge (strOf "Thinking") []]
  else if itype == strOf "fileChange" then
    let changes := match item.lookup (strOf "changes") with
      | some (.jarr xs) => xs
      | _ => []
    if !changes.isEmpty then changes.map (fileChangeBadge home)
    else [.toolBadge (strOf "Write") []]
  else if itype == strOf "plan" then
    [.toolBadge (strOf "Planning") []]
  else if itype == strOf "collabAgentToolCall" then
    [.toolBadge (strOf "Agent") (item.getS (strOf "tool"))]
  else if itype == strOf "contextCompaction" then
    [.toolBadge (strOf "Compacting") []]
  else if itype == strOf "imageView" then
    let path := item.getS (strOf "path")
    [.toolBadge (strOf "Image") (if !path.isEmpty then Claude._short_path home path else [])]
  else []

/-- Events for an item/completed notification, by item type. -/
def itemCompletedEvents (home : Str) (item : J) : List AgentEvent :=
  let itype := item.getS (strOf "type")
  if itype == strOf "agentMessage" then []
  else if itype == strOf "reasoning" then
    let take := fun (k : Str) => match item.lookup k with
      | some (.jarr xs) => xs
      | _ => []
    let parts := if !(take (strOf "summary")).isEmpty then take (strOf "summary")
      else take (strOf "content")
    let text := List.intercalate (strOf "\n")
      (parts.map (fun p => match p with | .js v => v | _ => []))
    if !parts.isEmpty && !text.isEmpty then [.thinkingDelta text] else
      if !parts.isEmpty && text.isEmpty then [] else []
  else if itype == strOf "plan" then []
  else if itype == strOf "commandExecution" then
    [.toolBadge (strOf "Run") (shortCmd (item.getS (strOf "command")))]
  else if itype == strOf "fileChange" then
    (match item.lookup (strOf "changes") with
      | some (.jarr xs) => xs
      | _ => []).map (fileChangeBadge home)
  else if itype == strOf "mcpToolCall" then
    let tool := item.getS (strOf "tool")
    let server := item.getS (strOf "server")
    let label := if !server.isEmpty then server ++ [ '/' ] ++ tool else tool
    [.toolBadge (strOf "MCP") (label.take 80)]
  else if itype == strOf "webSearch" then
    [.toolBadge (strOf "Search") ((item.getS (strOf "query")).take 80)]
  else if itype == strOf "collabAgentToolCall" then
    [.toolBadge (strOf "Agent") (item.getS (strOf "tool"))]
  else []

/-- Success of turn/completed: status missing, null, or the completed
string. -/
def turnSuccess (turn : J) : Bool :=
  match turn.lookup (strOf "status") with
  | none => true
  | some .null => true
  | some (.js v) => v == strOf "completed"
  | some _ => false

/-- turn.error.message if the error is an object with a truthy message. -/
def turnErrorMessage (turn : J) : Str :=
  match turn.lookup (strOf "error") with
  | some (.jobj fs) =>
    match (J.jobj fs).lookup (strOf "message") with
    | some (.js v) => v
    | _ => []
  | _ => []

/-- The informational notification families of the Codex dispatch (every
branch past turn/started and turn/completed): their events; the adapter
state is untouched and the turn continues. -/
def infoEvents (home : Str) (obj : J) : List AgentEvent :=
  let method := obj.getS (strOf "method")
  let params := obj.getD (strOf "params") (.jobj [])
  if method == strOf "item/agentMessage/delta" then
    let delta := params.getS (strOf "delta")
    if !delta.isEmpty then [.textDelta delta] else []
  else if method == strOf "item/reasoning/textDelta" then
    let delta := params.getS (strOf "delta")
    if !delta.isEmpty then [.thinkingDelta delta] else []
  else if method == strOf "item/reasoning/summaryTextDelta" then
    let delta := params.getS (strOf "delta")
    if !delta.isEmpty then [.thinkingDelta delta] else []
  else if method == strOf "item/reasoning/summaryPartAdded" then []
  else if method == strOf "item/plan/delta" then
    let delta := params.getS (strOf "delta")
    if !delta.isEmpty then [.thinkingDelta delta] else []
  else if method == strOf "item/commandExecution/outputDelta" then
    let delta := params.getS (strOf "delta")
    if !delta.isEmpty then [.toolOutput (strOf "Run") (delta.take 500)] else []
  else if method == strOf "item/commandExecution/terminalInteraction" then
    let output := params.getS (strOf "output")
    if !output.isEmpty then [.toolOutput (strOf "Run") (output.take 500)] else []
  else if method == strOf "item/fileChange/outputDelta" then
    let delta := params.getS (strOf "delta")
    if !delta.isEmpty then [.toolOutput (strOf "Write") (delta.take 500)] else []
  else if method == strOf "item/mcpToolCall/progress" then
    let msg := params.getS (strOf "message")
    if !msg.isEmpty then [.toolBadge (strOf "MCP") (msg.take 80)] else []
  else if method == strOf "item/started" then
    itemStartedEvents home (params.getD (strOf "item") (.jobj []))
  else if method == strOf "item/completed" then
    itemCompletedEvents home (params.getD (strOf "item") (.jobj []))
  else []

/-- Processing of one parsed stdout line inside Codex read_events, in
source dispatch order.  Error notifications, JSON-RPC responses, and the
informational notification families are consumed silently, as in the
source, so they share the final catch-all. -/
def step (home : Str) (st : State) (obj : J) :
    List AgentEvent × State × Bool :=
  let method := obj.getS (strOf "method")
  let params := obj.getD (strOf "params") (.jobj [])
  if method == strOf "turn/started" then
    let turn := params.getD (strOf "turn") (.jobj [])
    let st := match turn.lookup (strOf "id") with
      | some (.js tid) => { st with turn_id := some tid }
      | _ => st
    ([], st, false)
  else if method == strOf "turn/completed" then
    let turn := params.getD (strOf "turn") (.jobj [])
    let err := turnErrorMessage turn
    let st' := { st with turn_id := none }
    ([.turnComplete [] st.thread_id (turnSuccess turn)
        (if err.isEmpty then none else some err)], st', true)
  else (infoEvents home obj, st, false)

/-- read_events in codex.py: scan lines until turn/completed; EOF before it
is a fatal protocol error. -/
def readLoop (home : Str) (st : State) : List J → List AgentEvent × ReadOutcome
  | [] => ([], .failed (strOf "codex process ended before turn/completed"))
  | l :: rest =>
    let r := step home st l
    if r.2.2 then (r.1, .completed)
    else (r.1 ++ (readLoop home r.2.1 rest).1, (readLoop home r.2.1 rest).2)

def read_events (home : Str) (st : State) (lines : List J) :
    List AgentEvent × ReadOutcome :=
  readLoop home st lines

end Codex

namespace Kimi

/-! Embedding of src/agents/protocols/kimi.py. -/

/-- Length of a match of the CSI alternative of _ANSI_RE at the front of s:
escape, open bracket, a run of digits or semicolons, one ASCII letter.  The
greedy run cannot backtrack usefully because no digit or semicolon is a
letter. -/
def ansiCsiLen (s : Str) : Option Nat :=
  match s with
  | '\x1b' :: '[' :: rest =>
    match rest.drop ((rest.takeWhile (fun c => c.isDigit || c == ';')).length) with
    | c :: _ =>
      if c.isAlpha then
        some (2 + (rest.takeWhile (fun c => c.isDigit || c == ';')).length + 1)
      else none
    | [] => none
  | _ => none

/-- Scan for the terminating BEL of the OSC alternative; the lazy dot of the
pattern does not cross a newline.  k counts skipped characters. -/
def findBel : Str → Nat → Option Nat
  | [], _ => none
  | c :: cs, k =>
    if c == '\x07' then some (2 + k + 1)
    else if c == '\n' then none
    else findBel cs (k + 1)

/-- Length of a match of the OSC alternative of _ANSI_RE at the front of s:
escape, close bracket, lazily anything up to a BEL. -/
def ansiOscLen (s : Str) : Option Nat :=
  match s with
  | '\x1b' :: ']' :: rest => findBel rest 0
  | _ => none

theorem takeWhile_length_le (p : Char → Bool) (l : Str) :
    (l.takeWhile p).length ≤ l.length := by
  induction l with
  | nil => simp
  | cons c rest ih =>
    by_cases h : p c
    · simp [List.takeWhile, h]
      omega
    · simp [List.takeWhile, h]

theorem ansiCsiLen_bounds {s : Str} {n : Nat} (h : ansiCsiLen s = some n) :
    3 ≤ n ∧ n ≤ s.length := by
  unfold ansiCsiLen at h
  split at h
  · rename_i rest
    have hdl := takeWhile_length_le (fun c => c.isDigit || c == ';') rest
    split at h
    · rename_i c cs hdrop
      split at h
      · simp at h
        have hlen :
            (rest.drop ((rest.takeWhile (fun c => c.isDigit || c == ';')).length)).length
              = rest.length - (rest.takeWhile (fun c => c.isDigit || c == ';')).length := by
          simp [List.length_drop]
        rw [hdrop] at hlen
        simp at hlen
        simp [List.length_cons]
        omega
      · simp at h
    · simp at h
  · simp at h

theorem findBel_bounds : ∀ {s : Str} {k n : Nat}, findBel s k = some n →
    3 + k ≤ n ∧ n ≤ 3 + k + s.length - 1 := by
  intro s
  induction s with
  | nil => intro k n h; simp [findBel] at h
  | cons c cs ih =>
    intro k n h
    unfold findBel at h
    split at h
    · simp at h
      simp [List.length_cons]
      omega
    · split at h
      · simp at h
      · have := ih h
        simp [List.length_cons]
        omega

theorem ansiOscLen_bounds {s : Str} {n : Nat} (h : ansiOscLen s = some n) :
    3 ≤ n ∧ n ≤ s.length := by
  unfold ansiOscLen at h
  split at h
  · rename_i rest
    have := findBel_bounds h
    simp [List.length_cons]
    omega
  · simp at h

/-- _ANSI_RE.sub("", s): remove every CSI or OSC escape sequence. -/
def stripAnsiF : Nat → Str → Str
  | 0, s => s
  | fuel + 1, s =>
    match s with
    | [] => []
    | c :: rest =>
      match ansiCsiLen (c :: rest) with
      | some n => stripAnsiF fuel ((c :: rest).drop n)
      | none =>
        match ansiOscLen (c :: rest) with
        | some n => stripAnsiF fuel ((c :: rest).drop n)
        | none => c :: stripAnsiF fuel rest

def stripAnsi (s : Str) : Str := stripAnsiF (s.length + 1) s

/-- What happens to the future registered for one ApprovalRequest while the
adapter waits: a respond_to_permission call resolves it in time, or nothing
arrives within permission_timeout. -/
inductive PermOutcome where
  | resolved (approved : Bool)
  | timeout
deriving DecidableEq, Repr

/-- Adapter configuration: permission_mode and the sign of
permission_timeout (the source only tests permission_timeout > 0 inside
read_events; positive means waits can time out). -/
structure Config where
  permission_mode : Str
  permission_timeout_pos : Bool

/-- Observable actions of read_events, in order: events yielded to the
caller, JSON-RPC responses written to stdin, the registration of a pending
permission future, and the await on that future with its outcome. -/
inductive Act where
  | emit (e : AgentEvent)
  | sendResponse (req_id : J) (result : J)
  | register (perm_id : Str)
  | awaitPerm (perm_id : Str) (outcome : PermOutcome)

/-- Adapter state across one read_events call: the session id survives the
call; last_prompt_id is set by send_message; streamed_text and rpc_error
are the call's locals, reset on entry. -/
structure State where
  session_id : Option Str := none
  last_prompt_id : Option Str := none
  streamed_text : List Str := []
  rpc_error : Option J := none

/-- Python str() on the JSON values that reach it in this adapter (strings
pass through; integer ids print in decimal; other shapes are not exercised
by any claim and map to the empty string). -/
def jToStr : J → Str
  | .js v => v
  | .jn n => strOf (toString n)
  | _ => []

/-- A truthy-or chain such as payload.get(a) or payload.get(b) or "". -/
def firstTruthy (vals : List (Option J)) : J :=
  match vals with
  | [] => .js []
  | v :: rest =>
    let x := v.getD .null
    if x.truthy then x else firstTruthy rest

/-- method, lowercased when it is a string (kimi.py line 146-147). -/
def methodNorm (obj : J) : Str :=
  match obj.lookup (strOf "method") with
  | some (.js v) => pyLower v
  | _ => []

/-- obj.get("id") where a JSON null behaves as an absent id. -/
def reqIdOf (obj : J) : Option J :=
  match obj.lookup (strOf "id") with
  | some .null => none
  | some v => some v
  | none => none

/-- The result of processing one parsed line. -/
inductive StepRes where
  | next (acts : List Act) (st : State)
  | finish (acts : List Act) (st : State)
  | raise (acts : List Act) (reason : Str)
  | hangs (acts : List Act)

/-- fn.get("arguments") is a string of JSON that the source parses with
json.loads, falling back to an empty dict; the model input carries the
parsed form directly (an object), anything else standing for a parse
failure. -/
def parsedArgs (fn : J) : J :=
  match fn.lookup (strOf "arguments") with
  | some (.jobj fs) => .jobj fs
  | _ => .jobj []

/-- ToolBadge for a tool_call function object (name + extracted detail). -/
def toolCallBadge (home : Str) (fn : J) : AgentEvent :=
  .toolBadge (fn.getS (strOf "name"))
    (Claude._extract_tool_detail home (parsedArgs fn))

/-- Events for the assistant-style fallback content parts. -/
def assistantPartEvents (home : Str) (part : J) : List Str × List AgentEvent :=
  match part with
  | .jobj _ =>
    let ptype := pyLower (part.getS (strOf "type"))
    if ptype == strOf "text" then
      let text := stripAnsi (part.getS (strOf "text"))
      if !text.isEmpty then ([text], [.textDelta text]) else ([], [])
    else if ptype == strOf "think" || ptype == strOf "thinking" then
      let thinking := jToStr (firstTruthy
        [part.lookup (strOf "think"), part.lookup (strOf "thinking")])
      if !thinking.isEmpty then ([], [.thinkingDelta thinking]) else ([], [])
    else if ptype == strOf "tool_call" || ptype == strOf "toolcall" then
      ([], [toolCallBadge home (part.getD (strOf "function") (.jobj []))])
    else ([], [])
  | _ => ([], [])

/-- The TurnEnd text: str(result.get("text","") or result.get("content",""))
for an object result, the string itself otherwise. -/
def turnEndText (result : J) : Str :=
  match result with
  | .jobj _ => jToStr (firstTruthy
      [result.lookup (strOf "text"), result.lookup (strOf "content")])
  | .js v => v
  | _ => []

/-- The informational notification families of the Kimi dispatch, from
turnBegin through subagentEvent: their emitted actions; none when the
method belongs to a later branch.  The adapter state is untouched and the
turn continues. -/
def infoActs (home : Str) (m : Str) (params : J) : Option (List Act) :=
  if m == strOf "turnbegin" || m == strOf "turn_begin" || m == strOf "turn/begin" then
    some []
  else if m == strOf "stepbegin" || m == strOf "step_begin" || m == strOf "step/begin" then
    let n := params.getD (strOf "n") (.js [])
    if n.truthy then some [.emit (.toolBadge (strOf "Step") (jToStr n))]
    else some []
  else if m == strOf "stepinterrupted" || m == strOf "step_interrupted" ||
      m == strOf "step/interrupted" then
    some [.emit (.toolBadge (strOf "Interrupted") [])]
  else if m == strOf "compactionbegin" || m == strOf "compaction_begin" ||
      m == strOf "compaction/begin" then
    some [.emit (.toolBadge (strOf "Compacting") [])]
  else if m == strOf "compactionend" || m == strOf "compaction_end" ||
      m == strOf "compaction/end" then
    some [.emit (.toolBadge (strOf "Compacted") (strOf "done"))]
  else if m == strOf "statusupdate" || m == strOf "status_update" ||
      m == strOf "status/update" then
    some []
  else if m == strOf "toolcall" || m == strOf "tool_call" || m == strOf "tool/call" then
    (match params with
     | .jobj _ => some [.emit (toolCallBadge home (params.getD (strOf "function") (.jobj [])))]
     | _ => some [])
  else if m == strOf "toolcallpart" || m == strOf "tool_call_part" ||
      m == strOf "tool/call/part" then
    (match params with
     | .jobj _ =>
       let fn := params.getD (strOf "function") (.jobj [])
       let argsDelta := fn.getS (strOf "arguments")
       if !argsDelta.isEmpty then
         some [.emit (.toolOutput (strOf "args") (argsDelta.take 500))]
       else some []
     | _ => some [])
  else if m == strOf "toolresult" || m == strOf "tool_result" || m == strOf "tool/result" then
    (match params with
     | .jobj _ =>
       let ret := params.getD (strOf "return_value") (.jobj [])
       let isErr := match ret with
         | .jobj _ => (ret.getD (strOf "is_error") (.jb false)).truthy
         | _ => false
       let output := match ret with
         | .jobj _ => (ret.lookup (strOf "output")).getD (.js [])
         | _ => .js []
       let toolId := params.getS (strOf "tool_call_id")
       some [.emit (.toolResult toolId (!isErr) ((jToStr output).take 300))]
     | _ => some [])
  else if m == strOf "approvalresponse" || m == strOf "approval_response" ||
      m == strOf "approval/response" then
    some []
  else if m == strOf "subagentevent" || m == strOf "subagent_event" ||
      m == strOf "subagent/event" then
    (match params with
     | .jobj _ =>
       let subEvent := params.getD (strOf "event") (.jobj [])
       some [.emit (.toolBadge (strOf "Subagent") ((subEvent.getS (strOf "type")).take 40))]
     | _ => some [])
  else none

/-- Handling of an incoming JSON-RPC request line (kimi.py lines 141-230):
ApprovalRequest, ToolCallRequest, or a generic ok. -/
def requestStep (cfg : Config) (permOracle : Str → PermOutcome)
    (st : State) (obj : J) (params : J) : StepRes :=
  let payload := match params.lookup (strOf "payload") with
    | some (.jobj fs) => J.jobj fs
    | _ => .jobj []
  let reqType := params.getS (strOf "type")
  match reqIdOf obj with
  | none => .next [] st
  | some reqId =>
    if reqType == strOf "ApprovalRequest" then
      let responseId := firstTruthy
        [payload.lookup (strOf "id"), payload.lookup (strOf "request_id")]
      if cfg.permission_mode == strOf "bypass" then
        .next [.sendResponse reqId (.jobj
            [(strOf "request_id", responseId),
             (strOf "response", .js (strOf "approve"))]),
           .emit (.toolBadge (strOf "Approved") [])] st
      else
        let permId := jToStr responseId
        let pre : List Act :=
          [.register permId,
           .emit (.permissionRequest permId
             (Claude.getSD payload (strOf "action") (strOf "unknown"))
             payload (payload.getS (strOf "description")))]
        let outcome := permOracle permId
        match outcome, cfg.permission_timeout_pos with
        | .timeout, false => .hangs pre
        | _, _ =>
          let decision := match outcome with
            | .resolved approved =>
              if approved then strOf "approve" else strOf "reject"
            | .timeout => strOf "reject"
          let label := if decision == strOf "approve" then strOf "Approved"
            else strOf "Denied"
          .next (pre ++
            [.awaitPerm permId outcome,
             .sendResponse reqId (.jobj
               [(strOf "request_id", responseId),
                (strOf "response", .js decision)]),
             .emit (.toolBadge label [])]) st
    else if reqType == strOf "ToolCallRequest" then
      let toolCallId := firstTruthy
        [payload.lookup (strOf "id"), payload.lookup (strOf "tool_call_id")]
      .next [.sendResponse reqId (.jobj
          [(strOf "tool_call_id", toolCallId),
           (strOf "return_value", .jobj
             [(strOf "is_error", .jb true),
              (strOf "output", .js []),
              (strOf "message", .js (strOf "external tool bridge not configured")),
              (strOf "display", .jarr [])])])] st
    else
      .next [.sendResponse reqId (.jobj [(strOf "ok", .jb true)])] st

/-- The contentPart dispatch branch (text, thinking, or tool-call part). -/
def contentStep (home : Str) (st : State) (params : J) : StepRes :=
  let part := match params with
    | .jobj _ => params.getD (strOf "part") params
    | _ => .jobj []
  let ptype := pyLower (part.getS (strOf "type"))
  if ptype == strOf "text" then
    let text := stripAnsi (jToStr (firstTruthy
      [part.lookup (strOf "text"), part.lookup (strOf "delta")]))
    if !text.isEmpty then
      .next [.emit (.textDelta text)]
        { st with streamed_text := st.streamed_text ++ [text] }
    else .next [] st
  else if ptype == strOf "think" || ptype == strOf "thinking" then
    let text := jToStr (firstTruthy
      [part.lookup (strOf "think"), part.lookup (strOf "thinking")])
    if !text.isEmpty then .next [.emit (.thinkingDelta text)] st
    else .next [] st
  else if ptype == strOf "tool_call" || ptype == strOf "toolcall" ||
      (part.lookup (strOf "function")).isSome then
    .next [.emit (toolCallBadge home (part.getD (strOf "function") (.jobj [])))] st
  else .next [] st

/-- The turnEnd dispatch branch: the turn finishes. -/
def turnEndStep (st : State) (params : J) : StepRes :=
  let result := match params with
    | .jobj _ => params.getD (strOf "result") (.js [])
    | _ => .js []
  let text := turnEndText result
  let sid := match params with
    | .jobj _ => firstTruthy
        [params.lookup (strOf "session_id"), params.lookup (strOf "sessionId")]
    | _ => .null
  let st := if sid.truthy then { st with session_id := some (jToStr sid) } else st
  .finish [.emit (.turnComplete text st.session_id true none)] st

/-- A JSON-RPC response carrying a result: the prompt response completes
the turn with the streamed text. -/
def rpcResultStep (st : State) (obj : J) : StepRes :=
  let result := (obj.lookup (strOf "result")).getD .null
  let st := match result.lookup (strOf "session_id") with
    | some v => { st with session_id := some (jToStr v) }
    | none => st
  let st := match result.lookup (strOf "sessionId") with
    | some v => { st with session_id := some (jToStr v) }
    | none => st
  match st.last_prompt_id with
  | some lp =>
    if jToStr ((obj.lookup (strOf "id")).getD .null) == lp then
      .finish [.emit (.turnComplete st.streamed_text.flatten st.session_id true none)] st
    else .next [] st
  | none => .next [] st

/-- A JSON-RPC response carrying an error: raise for the prompt request,
store it otherwise. -/
def rpcErrorStep (st : State) (obj : J) : StepRes :=
  let err := (obj.lookup (strOf "error")).getD .null
  let errId := obj.lookup (strOf "id")
  let raises := match st.last_prompt_id with
    | none => true
    | some lp =>
      match errId with
      | some (.js v) => v == lp
      | _ => false
  if raises then .raise [] (strOf "kimi prompt RPC error")
  else .next [] { st with rpc_error := some err }

/-- A bare text object line. -/
def textLineStep (st : State) (obj : J) : StepRes :=
  let text := stripAnsi (obj.getS (strOf "text"))
  if !text.isEmpty then
    .next [.emit (.textDelta text)]
      { st with streamed_text := st.streamed_text ++ [text] }
  else .next [] st

/-- An assistant-role message line: the fallback content parts. -/
def assistantStep (home : Str) (st : State) (obj : J) : StepRes :=
  let parts := match obj.lookup (strOf "content") with
    | some (.jarr xs) => xs
    | _ => []
  let merged := parts.map (assistantPartEvents home)
  .next ((merged.map Prod.snd).flatten.map Act.emit)
    { st with streamed_text := st.streamed_text ++ (merged.map Prod.fst).flatten }

/-- The catch-all: a legacy turn-end object finishes the turn, anything
else is ignored. -/
def fallbackEndStep (st : State) (obj : J) : StepRes :=
  let eventType := pyLower (obj.getS (strOf "type"))
  if eventType == strOf "turnend" || eventType == strOf "turn_end" ||
      eventType == strOf "done" || eventType == strOf "result" then
    let result := obj.getD (strOf "result") (.js [])
    let text := turnEndText result
    let sid := firstTruthy
      [obj.lookup (strOf "session_id"), obj.lookup (strOf "sessionId")]
    let st := if sid.truthy then { st with session_id := some (jToStr sid) } else st
    .finish [.emit (.turnComplete text st.session_id true none)] st
  else .next [] st

/-- Processing of one parsed stdout line of Kimi read_events (kimi.py lines
131-448), dispatch for dispatch in source order.  home parametrises
_short_path; permOracle gives the outcome of the wait on each registered
permission future. -/
def step (home : Str) (cfg : Config) (permOracle : Str → PermOutcome)
    (st : State) (obj : J) : StepRes :=
  let m0 := methodNorm obj
  let params0 := obj.getD (strOf "params") (.jobj [])
  let unwrapped := m0 == strOf "event" &&
    (match params0 with | .jobj _ => true | _ => false)
  let m := if unwrapped then
      (match params0.lookup (strOf "type") with
       | some (.js v) => pyLower v
       | _ => [])
    else m0
  let params := if unwrapped then params0.getD (strOf "payload") (.jobj []) else params0
  if m == strOf "request" &&
      (match params with | .jobj _ => true | _ => false) then
    requestStep cfg permOracle st obj params
  else match infoActs home m params with
  | some acts => .next acts st
  | none =>
  if m == strOf "contentpart" || m == strOf "content_part" ||
      m == strOf "content/part" then
    contentStep home st params
  else if m == strOf "turnend" || m == strOf "turn/end" ||
      m == strOf "turn_completed" || m == strOf "turncompleted" then
    turnEndStep st params
  else if (obj.lookup (strOf "id")).isSome && (obj.lookup (strOf "result")).isSome then
    rpcResultStep st obj
  else if (obj.lookup (strOf "id")).isSome && (obj.lookup (strOf "error")).isSome then
    rpcErrorStep st obj
  else if obj.getS (strOf "type") == strOf "text" then
    textLineStep st obj
  else if obj.getS (strOf "role") == strOf "assistant" then
    assistantStep home st obj
  else
    fallbackEndStep st obj

/-- End-of-stream handling of read_events (kimi.py lines 450-476): a
pending RPC error raises; streamed text synthesizes a completed turn; an
empty turn raises. -/
def eofResult (st : State) : List Act × ReadOutcome :=
  if st.rpc_error.isSome then ([], .failed (strOf "kimi RPC error"))
  else if !st.streamed_text.isEmpty then
    ([.emit (.turnComplete st.streamed_text.flatten st.session_id true none)], .completed)
  else ([], .failed (strOf "kimi process ended before TurnEnd"))

/-- The line scan of read_events.  Processing stops at the first finished
turn, raised error, or hung permission wait; EOF falls to eofResult. -/
def readLoop (home : Str) (cfg : Config) (permOracle : Str → PermOutcome)
    (st : State) : List J → List Act × ReadOutcome
  | [] => eofResult st
  | l :: rest =>
    match step home cfg permOracle st l with
    | .next acts st' =>
      (acts ++ (readLoop home cfg permOracle st' rest).1,
       (readLoop home cfg permOracle st' rest).2)
    | .finish acts _ => (acts, .completed)
    | .raise acts reason => (acts, .failed reason)
    | .hangs acts => (acts, .failed (strOf "hung waiting for permission response"))

/-- read_events in kimi.py, with streamed_text and rpc_error reset on
entry as the call's locals.  A wait that can never end (permission_timeout
not positive and no respond_to_permission call) is reported as a failure
with a distinguished message rather than modelled as nontermination. -/
def read_events (home : Str) (cfg : Config) (permOracle : Str → PermOutcome)
    (st : State) (lines : List J) : List Act × ReadOutcome :=
  readLoop home cfg permOracle
    { st with streamed_text := [], rpc_error := none } lines

/-- The agent events among a list of actions. -/
def actEvents (acts : List Act) : List AgentEvent :=
  acts.filterMap (fun a => match a with | .emit e => some e | _ => none)

end Kimi

namespace Room

/-! Transition-system embedding of ChatRoom.run_persistent (src/chat/room.py,
lines 602-979) restricted to the state the claims observe: the session
history, per-agent inboxes and flags, the relay-dedup cache, delivery
tracking, and the round/settlement machinery.  Each transition below is one
atomic block of the source: a pump iteration handling one queued input, one
agent-loop iteration (dequeue, drain, ack, respond, relay), the settlement
signal, or the pump consuming a settlement sentinel.  Wall-clock instants
of time.monotonic are the Nat parameter now, in seconds. -/

/-- One history entry ({role, content, round?}). -/
structure HistMsg where
  role : Str
  content : Str
  round : Option Nat
deriving DecidableEq, Repr

/-- One inbox item (sender, message, round_number, delivery_id). -/
structure InboxItem where
  sender : Str
  message : Str
  round : Option Nat
  delivery : Option Str
deriving DecidableEq, Repr

/-- The room + persistent-state fields of ChatRoom and _PersistentState.
agent_started is agent_initialized in the source. -/
structure RState where
  agents : List Str
  history : List HistMsg
  inboxes : List (Str × List InboxItem)
  agent_idle : List (Str × Bool)
  agent_passed : List (Str × Bool)
  agent_started : List (Str × Bool)
  recent_relays : List ((Str × Str × Str) × Nat)
  delivery_seq : Nat
  delivery_pending : PendingMap
  round_number : Nat
  round_open : Bool
  round_has_activity : Bool
  settlement_signaled : Bool
  pending_sentinels : Nat
  any_stopped : Bool
  pause_on_stop : Bool
deriving DecidableEq, Repr

def getB (m : List (Str × Bool)) (k : Str) : Bool :=
  ((m.find? (fun p => p.1 == k)).map Prod.snd).getD false

def setB (m : List (Str × Bool)) (k : Str) (v : Bool) : List (Str × Bool) :=
  if m.any (fun p => p.1 == k) then
    m.map (fun p => if p.1 == k then (k, v) else p)
  else m ++ [(k, v)]

def removeB (m : List (Str × Bool)) (k : Str) : List (Str × Bool) :=
  m.filter (fun p => p.1 != k)

def inboxOf (st : RState) (a : Str) : List InboxItem :=
  ((st.inboxes.find? (fun p => p.1 == a)).map Prod.snd).getD []

def hasInbox (st : RState) (a : Str) : Bool :=
  st.inboxes.any (fun p => p.1 == a)

def setInbox (bs : List (Str × List InboxItem)) (a : Str) (v : List InboxItem) :
    List (Str × List InboxItem) :=
  if bs.any (fun p => p.1 == a) then
    bs.map (fun p => if p.1 == a then (a, v) else p)
  else bs ++ [(a, v)]

def pushInbox (bs : List (Str × List InboxItem)) (a : Str) (item : InboxItem) :
    List (Str × List InboxItem) :=
  bs.map (fun p => if p.1 == a then (a, p.2 ++ [item]) else p)

def removeInbox (bs : List (Str × List InboxItem)) (a : Str) :
    List (Str × List InboxItem) :=
  bs.filter (fun p => p.1 != a)

/-- Python text.split(): whitespace runs separate words, no empties. -/
def splitWsF : Nat → Str → List Str
  | 0, _ => []
  | fuel + 1, s =>
    match s.dropWhile isPyWs with
    | [] => []
    | c :: rest =>
      let w := rest.takeWhile (fun ch => !isPyWs ch)
      (c :: w) :: splitWsF fuel (rest.drop w.length)

def splitWs (s : Str) : List Str := splitWsF (s.length + 1) s

/-- _normalize_relay_text: collapse whitespace runs to single spaces and
lowercase. -/
def _normalize_relay_text (t : Str) : Str :=
  pyLower (List.intercalate [' '] (splitWs t))

def _RELAY_DEDUP_COOLDOWN_SECONDS : Nat := 8

def _RELAY_DEDUP_MAX_ENTRIES : Nat := 2048

def relayLookup (rel : List ((Str × Str × Str) × Nat)) (k : Str × Str × Str) :
    Option Nat :=
  ((rel.find? (fun p => p.1 == k)).map Prod.snd)

def relaySet (rel : List ((Str × Str × Str) × Nat)) (k : Str × Str × Str) (v : Nat) :
    List ((Str × Str × Str) × Nat) :=
  if rel.any (fun p => p.1 == k) then
    rel.map (fun p => if p.1 == k then (k, v) else p)
  else rel ++ [(k, v)]

/-- _prune_recent_relays: drop entries older than the cooldown; on overflow
keep only the most recent entries. -/
def _prune_recent_relays (rel : List ((Str × Str × Str) × Nat)) (now : Nat) :
    List ((Str × Str × Str) × Nat) :=
  let cutoff := now - _RELAY_DEDUP_COOLDOWN_SECONDS
  let pruned := rel.filter (fun p => !(p.2 < cutoff))
  if pruned.length ≤ _RELAY_DEDUP_MAX_ENTRIES then pruned
  else (pruned.mergeSort (fun x y => decide (y.2 ≤ x.2))).take _RELAY_DEDUP_MAX_ENTRIES

/-- _should_relay_share: prune, reject empty normalized text, gate on the
cooldown cache, record the new timestamp when relaying. -/
def _should_relay_share (rel : List ((Str × Str × Str) × Nat)) (now : Nat)
    (sender target : Str) (shareable : Str) :
    List ((Str × Str × Str) × Nat) × Bool :=
  let rel := _prune_recent_relays rel now
  let normalized := _normalize_relay_text shareable
  if normalized.isEmpty then (rel, false)
  else
    let key := (pyLower sender, pyLower target, normalized)
    match relayLookup rel key with
    | some last =>
      if now - last < _RELAY_DEDUP_COOLDOWN_SECONDS then (rel, false)
      else (relaySet rel key now, true)
    | none => (relaySet rel key now, true)

/-- _enqueue_delivery: fresh delivery id, pending set, one inbox item per
recipient with an inbox. -/
def enqueueDelivery (st : RState) (sender message : Str) (round : Option Nat)
    (recipients : List Str) : RState :=
  if recipients.isEmpty then st
  else
    let seq := st.delivery_seq + 1
    let did := strOf ("d" ++ toString seq)
    let st := { st with delivery_seq := seq,
                        delivery_pending := st.delivery_pending ++ [(did, recipients)] }
    recipients.foldl (fun st r =>
      if hasInbox st r then
        { st with inboxes := pushInbox st.inboxes r ⟨sender, message, round, some did⟩ }
      else st) st

/-- _try_signal_persistent_settlement: conditions checked in source order;
on success the signal flag flips and a sentinel None lands in event_queue
(counted in pending_sentinels). -/
def trySignal (st : RState) : RState :=
  if st.settlement_signaled then st
  else if !st.round_has_activity then st
  else if !(st.agents.all (fun a => getB st.agent_idle a)) then st
  else if !(st.agents.all (fun a => (inboxOf st a).isEmpty)) then st
  else { st with settlement_signaled := true,
                 pending_sentinels := st.pending_sentinels + 1 }

/-- The pump block handling one queued user message (room.py 791-816). -/
def userInject (st : RState) (text : Str) : RState :=
  let st := if !st.round_open then
      { st with any_stopped := false, pause_on_stop := true, round_open := true }
    else st
  let st := { st with
    history := st.history ++ [{ role := strOf "user", content := text, round := none }],
    settlement_signaled := false,
    round_has_activity := true,
    agent_idle := st.agents.foldl (fun m a => setB m a false) st.agent_idle,
    agent_passed := st.agents.foldl (fun m a => setB m a false) st.agent_passed }
  enqueueDelivery st (strOf "user") text (some st.round_number) st.agents

/-- The pump block handling one queued system message (room.py 819-842). -/
def systemInject (st : RState) (text : Str) : RState :=
  let st := if !st.round_open then
      { st with any_stopped := false, pause_on_stop := true, round_open := true }
    else st
  let st := { st with
    history := st.history ++ [{ role := strOf "system", content := text, round := none }],
    settlement_signaled := false,
    round_has_activity := true,
    agent_idle := st.agents.foldl (fun m a => setB m a false) st.agent_idle,
    agent_passed := st.agents.foldl (fun m a => setB m a false) st.agent_passed }
  enqueueDelivery st (strOf "system") text (some st.round_number) st.agents

/-- The pump block handling one debounced DM from the restart queue
(room.py 845-869); the 500 ms coalescing happens upstream, so text is the
already-joined DM text. -/
def dmInject (st : RState) (name text : Str) : RState :=
  if !(hasInbox st name) then st
  else
    let st := if !st.round_open then
        { st with any_stopped := false, pause_on_stop := true, round_open := true }
      else st
    let st := { st with
      agent_idle := setB st.agent_idle name false,
      agent_passed := setB st.agent_passed name false,
      settlement_signaled := false,
      round_has_activity := true }
    enqueueDelivery st (strOf "dm") text (some st.round_number) [name]

/-- _process_persistent_agent_response (room.py 510-548). -/
def processResponse (st : RState) (a : Str) (r : Str) (mr : Nat) (now : Nat) : RState :=
  if Router.detect_pass r then
    { st with
      agent_passed := setB st.agent_passed a true,
      agent_idle := setB st.agent_idle a true,
      history := st.history ++ [{ role := a, content := Router.passTok, round := some mr }] }
  else
    let shareable := Router.extract_shareable r
    let st := { st with
      agent_passed := setB st.agent_passed a false,
      history := st.history ++
        [{ role := a,
           content := if shareable.isEmpty then Router.PLACEHOLDER else shareable,
           round := some mr }],
      agent_idle := setB st.agent_idle a true }
    if !shareable.isEmpty && shareable != Router.PLACEHOLDER then
      let folded := st.agents.foldl
        (fun (acc : (List ((Str × Str × Str) × Nat)) × List Str) other =>
          if other != a then
            let pr := _should_relay_share acc.1 now a other shareable
            (pr.1, if pr.2 then acc.2 ++ [other] else acc.2)
          else acc)
        (st.recent_relays, [])
      let targets := folded.2
      let st := { st with
        recent_relays := folded.1,
        agent_idle := targets.foldl (fun m t => setB m t false) st.agent_idle }
      enqueueDelivery st a shareable (some mr) targets
    else st

/-- One agent-loop iteration (room.py 620-773): dequeue plus batch drain,
acks, round attribution, prompt (not modelled: text only), then either the
response processing or the stopped/timeout path, which completes without a
history entry; both paths end in a settlement check.  resp is the
response text the agent produced, none standing for the stop, stream-error
with empty text, and hard-timeout paths that skip processResponse.  Fails
(none) when the agent does not exist or its inbox is empty, matching the
blocking dequeue. -/
def agentStep (st : RState) (a : Str) (resp : Option Str) (now : Nat) :
    Option RState :=
  if !(st.agents.contains a) || !(hasInbox st a) then none
  else
    match inboxOf st a with
    | [] => none
    | item :: restItems =>
      let batch := item :: restItems
      let st := { st with
        inboxes := setInbox st.inboxes a [],
        agent_idle := setB st.agent_idle a false,
        agent_passed := setB st.agent_passed a false }
      let st := batch.foldl (fun st it =>
        { st with delivery_pending :=
            (_ack_delivery st.delivery_pending it.delivery a it.sender it.round).1 }) st
      let roundMarkers := batch.filterMap (fun it => it.round)
      let mr := match roundMarkers.maximum? with
        | some v => v
        | none => st.round_number
      let st := { st with agent_started := setB st.agent_started a true }
      match resp with
      | some r => some (trySignal (processResponse st a r mr now))
      | none =>
        some (trySignal { st with
          any_stopped := true,
          agent_passed := setB st.agent_passed a false,
          agent_idle := setB st.agent_idle a true })

/-- The pump consuming one settlement sentinel (room.py 931-964): on a
paused round the round number holds and the signal resets; otherwise the
round advances, closing it only when every agent passed. -/
def pumpRound (st : RState) : Option RState :=
  if st.pending_sentinels == 0 then none
  else
    let st := { st with pending_sentinels := st.pending_sentinels - 1 }
    let allPassed := st.agents.all (fun a => getB st.agent_passed a)
    if st.any_stopped && st.pause_on_stop then
      some { st with any_stopped := false, settlement_signaled := false }
    else
      some { st with
        round_number := st.round_number + 1,
        settlement_signaled := false,
        round_has_activity := false,
        round_open := !allPassed }

/-- The pump block admitting one new agent (room.py 872-905), seeded with
the last user message when one exists. -/
def addAgent (st : RState) (name : Str) : RState :=
  let st := { st with
    agents := st.agents ++ [name],
    inboxes := setInbox st.inboxes name [],
    agent_idle := setB st.agent_idle name false,
    agent_passed := setB st.agent_passed name false,
    agent_started := setB st.agent_started name false }
  match (st.history.reverse.find? (fun m => m.role == strOf "user")).map
      (fun m => m.content) with
  | some lastUser =>
    let st := if !st.round_open then
        { st with any_stopped := false, pause_on_stop := true, round_open := true }
      else st
    { st with
      inboxes := pushInbox st.inboxes name
        ⟨strOf "user", lastUser, some st.round_number, none⟩,
      settlement_signaled := false,
      round_has_activity := true }
  | none => st

/-- _drop_agent_pending_deliveries. -/
def dropAgentPending (m : PendingMap) (name : Str) : PendingMap :=
  (m.map (fun p => (p.1, p.2.filter (fun x => x != name)))).filter
    (fun p => !p.2.isEmpty)

/-- The pump block removing an agent (room.py 908-924). -/
def removeAgent (st : RState) (name : Str) : RState :=
  { st with
    agents := st.agents.filter (fun a => a != name),
    inboxes := removeInbox st.inboxes name,
    agent_idle := removeB st.agent_idle name,
    agent_passed := removeB st.agent_passed name,
    agent_started := removeB st.agent_started name,
    delivery_pending := dropAgentPending st.delivery_pending name }

/-- run_persistent entry + _init_persistent_state (room.py 344-382,
602-618): history may have been preloaded by the session runner; an
initial prompt is appended as a user message; the seed delivery targets
every agent. -/
def initState (agents : List Str) (preHistory : List HistMsg)
    (initialPrompt : Option Str) (startRound : Nat) : RState :=
  let history := match initialPrompt with
    | some ip => preHistory ++ [{ role := strOf "user", content := ip, round := none }]
    | none => preHistory
  let rn := startRound + 1
  let st : RState := {
    agents := agents,
    history := history,
    inboxes := agents.map (fun a => (a, [])),
    agent_idle := agents.map (fun a => (a, false)),
    agent_passed := agents.map (fun a => (a, false)),
    agent_started := agents.map (fun a => (a, false)),
    recent_relays := [],
    delivery_seq := 0,
    delivery_pending := [],
    round_number := rn,
    round_open := true,
    round_has_activity := false,
    settlement_signaled := false,
    pending_sentinels := 0,
    any_stopped := false,
    pause_on_stop := true }
  let seed := match initialPrompt with
    | some ip => some ip
    | none => (history.reverse.find? (fun m => m.role == strOf "user")).map
        (fun m => m.content)
  match seed with
  | some s =>
    { enqueueDelivery st (strOf "user") s (some rn) agents with
      round_has_activity := true }
  | none => st

/-- A history entry is well formed when any round-tagged message carries
either the pass token or the extraction of some response text. -/
def OkMsg (m : HistMsg) : Prop :=
  m.round.isSome → m.content = Router.passTok ∨
    ∃ resp, m.content = Router.extract_shareable resp

/-- The states run_persistent can reach, one constructor per atomic block.
The initial history is whatever the store replayed, constrained only to
already satisfy the history invariant; added agents carry fresh names. -/
inductive Reach : RState → Prop
  | init (agents : List Str) (preHistory : List HistMsg)
      (initialPrompt : Option Str) (startRound : Nat)
      (hok : ∀ m ∈ preHistory, OkMsg m) :
      Reach (initState agents preHistory initialPrompt startRound)
  | user {st : RState} (text : Str) : Reach st → Reach (userInject st text)
  | system {st : RState} (text : Str) : Reach st → Reach (systemInject st text)
  | dm {st : RState} (name text : Str) : Reach st → Reach (dmInject st name text)
  | step {st st' : RState} (a : Str) (resp : Option Str) (now : Nat) :
      Reach st → agentStep st a resp now = some st' → Reach st'
  | pump {st st' : RState} : Reach st → pumpRound st = some st' → Reach st'
  | add {st : RState} (name : Str) (h : st.agents.contains name = false) :
      Reach st → Reach (addAgent st name)
  | remove {st : RState} (name : Str) : Reach st → Reach (removeAgent st name)

end Room

/-! ## Claim theorems -/

/-- joinShares of no matches is empty. -/
theorem joinShares_nil : Router.joinShares [] = [] := by
  simp [Router.joinShares, List.intercalate]

/-- C4: detect_pass(text) is true exactly when the whitespace-trimmed text
equals the pass token; and extract_shareable returns the pass token when
detect_pass holds, otherwise strips thinking blocks, joins the trimmed
non-empty share matches with a blank line, and falls back to the
placeholder when no match is found or all matches are empty (the
specification reading, extractShareableSpec, agrees with the source
function on every input). -/
theorem C4_detect_pass_and_extract_shareable (text : Str) :
    (Router.detect_pass text = true ↔ pyStrip text = Router.passTok) ∧
    Router.extract_shareable text = Router.extractShareableSpec text := by
  constructor
  · simp [Router.detect_pass]
  · unfold Router.extract_shareable Router.extractShareableSpec Router.detect_pass
    cases h : pyStrip text == Router.passTok with
    | true => simp [h]
    | false =>
      simp only [h, Bool.false_eq_true, if_false]
      cases hm : Router.findShares (Router.removeThinking text) with
      | nil => simp [hm, joinShares_nil]
      | cons x xs => simp [hm]

/-- extract_shareable applied to the pass token returns the pass token. -/
theorem extract_passTok : Router.extract_shareable Router.passTok = Router.passTok := by
  decide

/-- extract_shareable applied to the placeholder returns the placeholder. -/
theorem extract_placeholder :
    Router.extract_shareable Router.PLACEHOLDER = Router.PLACEHOLDER := by
  decide

/-- C5 (amended): extract_shareable is idempotent at every input whose
extraction yields the pass token or the placeholder; in particular at
t = "[PASS]" and at any pure share in which the second pass finds no share
tags. -/
theorem C5_extract_idempotent (t : Str)
    (h : Router.extract_shareable t = Router.passTok ∨
         Router.extract_shareable t = Router.PLACEHOLDER) :
    Router.extract_shareable (Router.extract_shareable t) =
      Router.extract_shareable t := by
  rcases h with h | h <;> rw [h]
  · exact extract_passTok
  · exact extract_placeholder

/-- Witness for C5_extract_idempotent at t = "hello". -/
theorem C5_extract_idempotent_witness :
    Router.extract_shareable (strOf "hello") = Router.PLACEHOLDER ∧
    Router.extract_shareable (Router.extract_shareable (strOf "hello")) =
      Router.extract_shareable (strOf "hello") :=
  ⟨by decide, C5_extract_idempotent (strOf "hello") (Or.inr (by decide))⟩

/-- The response whose extraction is a pure share that re-extracts
differently: its single share content hides a share tag pair split by a
thinking block. -/
def c5x : Str :=
  strOf "<Share><share>W</sha<thi<thinking>p</thinking>nking>q</thinking>re></Share>"

/-- The pure share produced from c5x by a first extraction. -/
def c5share : Str := Router.extract_shareable c5x

/-- C5 counterexample: c5share is the shareable text produced by a previous
extraction (a pure share, neither the pass token nor the placeholder), yet
extract_shareable(extract_shareable(c5share)) differs from
extract_shareable(c5share): the second extraction of the pure share finds a
fresh share tag pair once the embedded thinking block is stripped. -/
theorem C5_counterexample :
    c5share = Router.extract_shareable c5x ∧
    c5share ≠ Router.passTok ∧
    c5share ≠ Router.PLACEHOLDER ∧
    Router.extract_shareable (Router.extract_shareable c5share) ≠
      Router.extract_shareable c5share :=
  ⟨rfl, by decide, by decide, by decide⟩

/-- startsWithCI holds exactly when some prefix of s lowercases to pat. -/
theorem startsWithCI_iff (s pat : Str) :
    startsWithCI s pat = true ↔ ∃ mid rest, s = mid ++ rest ∧ pyLower mid = pat := by
  induction pat generalizing s with
  | nil =>
    constructor
    · intro _
      exact ⟨[], s, rfl, rfl⟩
    · intro _
      cases s <;> simp [startsWithCI]
  | cons p ps ih =>
    cases s with
    | nil =>
      constructor
      · intro h
        simp [startsWithCI] at h
      · rintro ⟨mid, rest, hsplit, hlow⟩
        cases mid with
        | nil => simp [pyLower] at hlow
        | cons a as => simp at hsplit
    | cons c cs =>
      simp only [startsWithCI, Bool.and_eq_true, beq_iff_eq]
      constructor
      · rintro ⟨hc, hrest⟩
        obtain ⟨mid, rest, hsplit, hlow⟩ := (ih cs).mp hrest
        refine ⟨c :: mid, rest, by simp [hsplit], ?_⟩
        simp [pyLower] at hlow ⊢
        exact ⟨hc, hlow⟩
      · rintro ⟨mid, rest, hsplit, hlow⟩
        cases mid with
        | nil => simp [pyLower] at hlow
        | cons a as =>
          simp at hsplit
          obtain ⟨ha, hcs⟩ := hsplit
          subst ha
          simp [pyLower] at hlow
          obtain ⟨h1, h2⟩ := hlow
          refine ⟨h1, (ih cs).mpr ⟨as, rest, hcs, ?_⟩⟩
          simpa [pyLower] using h2

/-- containsCI holds exactly when pat occurs, case-insensitively, somewhere
inside s. -/
theorem containsCI_iff (s pat : Str) :
    containsCI s pat = true ↔
      ∃ pre mid post, s = pre ++ mid ++ post ∧ pyLower mid = pat := by
  unfold containsCI
  induction s with
  | nil =>
    unfold splitFirstCI
    by_cases hp : pat.isEmpty
    · constructor
      · intro _
        exact ⟨[], [], [], by simp, by simp [pyLower, List.isEmpty_iff.mp hp]⟩
      · intro _
        simp [hp]
    · constructor
      · intro h
        simp [hp] at h
      · rintro ⟨pre, mid, post, h, hlow⟩
        have hm : mid = [] := by
          have hlen := congrArg List.length h
          simp at hlen
          exact List.eq_nil_of_length_eq_zero (by omega)
        subst hm
        simp [pyLower] at hlow
        simp [hlow] at hp
  | cons c rest ih =>
    unfold splitFirstCI
    by_cases hs : startsWithCI (c :: rest) pat = true
    · constructor
      · intro _
        obtain ⟨mid, rest', hsplit, hlow⟩ := (startsWithCI_iff (c :: rest) pat).mp hs
        exact ⟨[], mid, rest', by simp [hsplit], hlow⟩
      · intro _
        simp [hs]
    · rw [if_neg hs]
      have hmap : (Option.map (fun pr => (c :: pr.1, pr.2)) (splitFirstCI pat rest)).isSome
          = (splitFirstCI pat rest).isSome := by
        cases splitFirstCI pat rest <;> rfl
      rw [hmap, ih]
      constructor
      · rintro ⟨pre, mid, post, hsplit, hlow⟩
        exact ⟨c :: pre, mid, post, by simp [hsplit], hlow⟩
      · rintro ⟨pre, mid, post, hsplit, hlow⟩
        cases pre with
        | nil =>
          simp at hsplit
          exact absurd ((startsWithCI_iff (c :: rest) pat).mpr
            ⟨mid, post, by simp [hsplit], hlow⟩) hs
        | cons a as =>
          simp at hsplit
          exact ⟨as, mid, post, by simp [hsplit.2], hlow⟩

/-- C9: detect_done(text) is true exactly when text contains the marker
"[DONE]" somewhere, case-insensitively — in contrast to detect_pass, which
requires the whole trimmed text to equal the pass token — so a card in the
planning work phase moves to reviewing under on_agent_completed exactly
when the response merely mentions the marker anywhere. -/
theorem C9_detect_done_substring (t : Str) :
    (Cards.detect_done t = true ↔
      ∃ pre mid post, t = pre ++ mid ++ post ∧ pyLower mid = strOf "[done]") ∧
    (Router.detect_pass t = true ↔ pyStrip t = Router.passTok) ∧
    (∀ c : Cards.Card, ∀ a : Str, c.status = Cards.CardStatus.planning →
      ((Cards.on_agent_completed c a t).1.status =
        if Cards.detect_done t then Cards.CardStatus.reviewing
        else Cards.CardStatus.planning)) := by
  refine ⟨containsCI_iff t (strOf "[done]"), by simp [Router.detect_pass], ?_⟩
  intro c a hst
  unfold Cards.on_agent_completed
  rw [hst]
  by_cases hd : Cards.detect_done t = true
  · simp [hd]
  · simp [hd, hst]

/-- A concrete card sitting in the planning phase. -/
def c9card : Cards.Card :=
  { id := strOf "c9", title := strOf "T", description := [],
    status := Cards.CardStatus.planning,
    planner := [], implementer := [], reviewer := [], coordinator := [],
    coordination_stage := [], previous_phase := none, history := [] }

/-- Witness for C9_detect_done_substring: a longer text that merely
mentions the marker counts as done and advances a planning card to
reviewing, while detect_pass rejects a longer text around the pass token. -/
theorem C9_detect_done_substring_witness :
    Cards.detect_done (strOf "plan drafted, looks [done] to me") = true ∧
    (Cards.on_agent_completed c9card (strOf "a")
      (strOf "plan drafted, looks [done] to me")).1.status =
        Cards.CardStatus.reviewing ∧
    Router.detect_pass (strOf "almost [PASS] here") = false := by
  have h := C9_detect_done_substring (strOf "plan drafted, looks [done] to me")
  have h3 := h.2.2 c9card (strOf "a") rfl
  refine ⟨by decide, ?_, by decide⟩
  rw [h3]
  decide

/-- A freshly created card (backlog, empty coordination stage). -/
def c8created : Cards.Card :=
  Cards.create_card (strOf "c8") (strOf "T") (strOf "D") [] [] [] []

/-- The same card after update_card(status := "coordinating"). -/
def c8updated : Cards.Card :=
  Cards.update_card c8created { status := some Cards.CardStatus.coordinating }

/-- C8 counterexample: a card reachable through create_card followed by
update_card sits in coordinating with the empty coordination stage,
refuting the claimed invariant over the operation set that includes
update_card. -/
theorem C8_counterexample :
    Cards.ReachAll c8updated ∧
    c8updated.status = Cards.CardStatus.coordinating ∧
    c8updated.coordination_stage = [] ∧
    ¬ (c8updated.coordination_stage = strOf "initial" ∨
       c8updated.coordination_stage = strOf "plan_decision" ∨
       c8updated.coordination_stage = strOf "impl_decision") :=
  ⟨Cards.ReachAll.update _ (Cards.ReachAll.create _ _ _ _ _ _ _), rfl, rfl, by decide⟩

/-- applyRole touches only the four role fields. -/
theorem applyRole_fields (c : Cards.Card) (rv : Str × Str) :
    (Cards.applyRole c rv).status = c.status ∧
    (Cards.applyRole c rv).coordination_stage = c.coordination_stage ∧
    (Cards.applyRole c rv).previous_phase = c.previous_phase := by
  unfold Cards.applyRole
  split_ifs <;> simp

/-- applyRoles touches only the four role fields. -/
theorem applyRoles_fields (roles : List (Str × Str)) (c : Cards.Card) :
    (Cards.applyRoles c roles).status = c.status ∧
    (Cards.applyRoles c roles).coordination_stage = c.coordination_stage ∧
    (Cards.applyRoles c roles).previous_phase = c.previous_phase := by
  induction roles generalizing c with
  | nil => simp [Cards.applyRoles]
  | cons rv rest ih =>
    have h1 := applyRole_fields c rv
    have h2 := ih (Cards.applyRole c rv)
    simp only [Cards.applyRoles, List.foldl_cons] at h2 ⊢
    exact ⟨h2.1.trans h1.1, (h2.2.1).trans h1.2.1, (h2.2.2).trans h1.2.2⟩

/-- Lifecycle induction: the coordination-stage invariant together with the
auxiliary fact that previous_phase never records coordinating (it is only
ever set to a work phase or cleared). -/
theorem cardLifeInv (c : Cards.Card) (h : Cards.ReachLife c) :
    Cards.StageInv c ∧ c.previous_phase ≠ some Cards.CardStatus.coordinating := by
  induction h with
  | create id title description planner implementer reviewer coordinator =>
    constructor
    · intro hs
      simp [Cards.create_card] at hs
    · simp [Cards.create_card]
  | start hr heq ih =>
    rename_i c0 c1 p
    unfold Cards.start_card at heq
    split at heq
    · simp at heq
    · split at heq
      · simp at heq
        rw [← heq.1]
        constructor
        · intro hs
          left
          rfl
        · simp
      · simp at heq
        rw [← heq.1]
        constructor
        · intro hs
          simp at hs
        · simp
  | complete hr heq ih =>
    rename_i c0 c1 a t p
    unfold Cards.on_agent_completed at heq
    cases hst : c0.status with
    | coordinating =>
      rw [hst] at heq
      simp only at heq
      split at heq
      · split at heq
        · simp at heq
          rw [← heq.1]
          refine ⟨by intro hs; simp at hs, ?_⟩
          simp
          rw [(applyRoles_fields _ _).2.2]
          simpa using ih.2
        · simp at heq
          rw [← heq.1]
          exact ⟨by intro hs; simpa using ih.1 hst, by simpa using ih.2⟩
      · split at heq
        · split at heq
          · simp at heq
            rw [← heq.1]
            exact ⟨by intro hs; simp at hs, by simpa using ih.2⟩
          · simp at heq
            rw [← heq.1]
            exact ⟨by intro hs; simp at hs, by simpa using ih.2⟩
        · split at heq
          · split at heq
            · simp at heq
              rw [← heq.1]
              exact ⟨by intro hs; simp at hs, by simpa using ih.2⟩
            · simp at heq
              rw [← heq.1]
              exact ⟨by intro hs; simp at hs, by simpa using ih.2⟩
          · simp at heq
            rw [← heq.1]
            exact ⟨by intro hs; simpa using ih.1 hst, by simpa using ih.2⟩
    | planning =>
      rw [hst] at heq
      simp only at heq
      split at heq
      · simp at heq
        rw [← heq.1]
        exact ⟨by intro hs; simp at hs, by simp⟩
      · simp at heq
        rw [← heq.1]
        exact ⟨by intro hs; simp [hst] at hs, by simpa using ih.2⟩
    | implementing =>
      rw [hst] at heq
      simp only at heq
      split at heq
      · simp at heq
        rw [← heq.1]
        exact ⟨by intro hs; simp at hs, by simp⟩
      · simp at heq
        rw [← heq.1]
        exact ⟨by intro hs; simp [hst] at hs, by simpa using ih.2⟩
    | reviewing =>
      rw [hst] at heq
      simp only at heq
      split at heq
      · simp at heq
        rw [← heq.1]
        refine ⟨?_, by simpa using ih.2⟩
        intro hs
        by_cases hpp : c0.previous_phase = some Cards.CardStatus.planning <;>
          simp [hpp] <;> decide
      · split at heq
        · split at heq
          · simp at heq
            rw [← heq.1]
            exact ⟨by intro hs; simp at hs, by simpa using ih.2⟩
          · simp at heq
            rw [← heq.1]
            exact ⟨by intro hs; simp [hst] at hs, by simpa using ih.2⟩
        · simp at heq
          rw [← heq.1]
          refine ⟨?_, by simp⟩
          intro hs
          simp at hs
          cases hpp : c0.previous_phase with
          | none => rw [hpp] at hs; simp [Option.getD] at hs
          | some v =>
            rw [hpp] at hs
            simp [Option.getD] at hs
            rw [hs] at hpp
            exact absurd hpp ih.2
    | backlog =>
      rw [hst] at heq
      simp only at heq
      simp at heq
      rw [← heq.1]
      exact ⟨by intro hs; simp [hst] at hs, by simpa using ih.2⟩
    | done =>
      rw [hst] at heq
      simp only at heq
      simp at heq
      rw [← heq.1]
      exact ⟨by intro hs; simp [hst] at hs, by simpa using ih.2⟩
  | markDone hr heq ih =>
    rename_i c0 c1
    unfold Cards.mark_done at heq
    split at heq
    · simp at heq
    · simp at heq
      rw [← heq]
      exact ⟨by intro hs; simp at hs, by simpa using ih.2⟩

/-- C8 (amended): along the lifecycle operations create_card, start_card,
on_agent_completed and mark_done — update_card excluded — a card whose
status is coordinating always carries one of the three non-empty
coordination stages, never the empty string. -/
theorem C8_stage_invariant (c : Cards.Card) (h : Cards.ReachLife c) :
    Cards.StageInv c :=
  (cardLifeInv c h).1

/-- A created card with a coordinator assigned. -/
def c8coordCreated : Cards.Card :=
  Cards.create_card (strOf "c8b") (strOf "T") (strOf "D") [] [] [] (strOf "Lead")

/-- That card after start_card, now coordinating. -/
def c8coordStarted : Cards.Card :=
  match Cards.start_card c8coordCreated with
  | .ok (c, _) => c
  | .error _ => c8coordCreated

/-- Witness for C8_stage_invariant: a concrete lifecycle-reachable
coordinating card satisfies the stage invariant. -/
theorem C8_stage_invariant_witness :
    c8coordStarted.status = Cards.CardStatus.coordinating ∧
    (c8coordStarted.coordination_stage = strOf "initial" ∨
     c8coordStarted.coordination_stage = strOf "plan_decision" ∨
     c8coordStarted.coordination_stage = strOf "impl_decision") := by
  have hreach : Cards.ReachLife c8coordStarted :=
    Cards.ReachLife.start (Cards.ReachLife.create _ _ _ _ _ _ _)
      (show Cards.start_card c8coordCreated =
        .ok (c8coordStarted, Cards.Prompt.coordinating) from rfl)
  exact ⟨rfl, C8_stage_invariant c8coordStarted hreach rfl⟩

/-- The recipient r is pending for no entry of delivery d. -/
def NotPending (m : Room.PendingMap) (d r : Str) : Prop :=
  ∀ p ∈ m, p.1 = d → r ∉ p.2

theorem pendingLookup_entry {m : Room.PendingMap} {d : Str} {s : List Str}
    (h : Room.pendingLookup m d = some s) : (d, s) ∈ m := by
  unfold Room.pendingLookup at h
  cases hf : m.find? (fun p => p.1 == d) with
  | none => rw [hf] at h; simp at h
  | some p =>
    rw [hf] at h
    simp at h
    have hp := List.find?_some hf
    have hm := List.mem_of_find?_eq_some hf
    simp at hp
    rcases p with ⟨k, v⟩
    simp at hp h
    subst hp
    rw [← h]
    exact hm

theorem notPending_lookup {m : Room.PendingMap} {d r : Str}
    (hnp : NotPending m d r) {s : List Str}
    (h : Room.pendingLookup m d = some s) : r ∉ s :=
  hnp (d, s) (pendingLookup_entry h) rfl

theorem notPending_discard (m : Room.PendingMap) (d r : Str) :
    NotPending (Room.discardRecipient m d r) d r := by
  intro p hp hpd
  unfold Room.discardRecipient at hp
  simp at hp
  obtain ⟨a, b, hq, hfq⟩ := hp
  by_cases hk : a = d
  · simp [hk] at hfq
    rw [← hfq]
    simp
  · simp [hk] at hfq
    rw [← hfq] at hpd
    exact absurd hpd hk

theorem notPending_discard_mono {m : Room.PendingMap} {d r : Str}
    (hnp : NotPending m d r) (d0 r0 : Str) :
    NotPending (Room.discardRecipient m d0 r0) d r := by
  intro p hp hpd
  unfold Room.discardRecipient at hp
  simp at hp
  obtain ⟨a, b, hq, hfq⟩ := hp
  by_cases hk : a = d0
  · simp [hk] at hfq
    have hpd' : d0 = d := by rw [← hfq] at hpd; simpa using hpd
    have hin : r ∉ b := hnp (a, b) hq (by simp [hk, hpd'])
    rw [← hfq]
    intro hmem
    exact hin (List.mem_of_mem_filter hmem)
  · simp [hk] at hfq
    rw [← hfq] at hpd ⊢
    exact hnp (a, b) hq hpd

theorem notPending_remove_mono {m : Room.PendingMap} {d r : Str}
    (hnp : NotPending m d r) (d0 : Str) :
    NotPending (Room.removePending m d0) d r := by
  intro p hp hpd
  unfold Room.removePending at hp
  exact hnp p (List.mem_of_mem_filter hp) hpd

/-- A state where r is not pending for d stays that way through any ack. -/
theorem ack_preserves_notPending {m : Room.PendingMap} {d r : Str}
    (hnp : NotPending m d r) (did : Option Str) (rec snd : Str)
    (rnd : Option Nat) :
    NotPending (Room._ack_delivery m did rec snd rnd).1 d r := by
  unfold Room._ack_delivery
  cases did with
  | none => exact hnp
  | some d0 =>
    by_cases he : d0.isEmpty
    · simp [he]
      exact hnp
    · simp [he]
      cases hl : Room.pendingLookup m d0 with
      | none => exact hnp
      | some pending =>
        by_cases hc : pending = [] ∨ rec ∉ pending
        · simp [hc]
          exact hnp
        · simp [hc]
          split
        
          · exact notPending_remove_mono (notPending_discard_mono hnp d0 rec) d0
          · exact notPending_discard_mono hnp d0 rec

theorem ack_noop_when_notPending {m : Room.PendingMap} {d r : Str}
    (hnp : NotPending m d r) (snd : Str) (rnd : Option Nat) :
    Room._ack_delivery m (some d) r snd rnd = (m, none) := by
  unfold Room._ack_delivery
  by_cases he : d.isEmpty
  · simp [he]
  · simp [he]
    cases hl : Room.pendingLookup m d with
    | none => simp
    | some pending =>
      have hmem := notPending_lookup hnp hl
      simp [Or.inr hmem]

/-- Shape of an emitted ack event: it names the call's delivery id,
recipient, sender and round, and afterwards the recipient is no longer
pending for that delivery. -/
theorem ack_event_shape {m : Room.PendingMap} {did : Option Str}
    {rec snd : Str} {rnd : Option Nat} {m' : Room.PendingMap}
    {ev : Room.AckEvent}
    (h : Room._ack_delivery m did rec snd rnd = (m', some ev)) :
    did = some ev.delivery_id ∧ ev.recipient = rec ∧ ev.sender = snd ∧
    ev.round_number = rnd ∧ NotPending m' ev.delivery_id rec := by
  unfold Room._ack_delivery at h
  cases did with
  | none => simp at h
  | some d0 =>
    by_cases he : d0.isEmpty
    · simp [he] at h
    · simp [he] at h
      cases hl : Room.pendingLookup m d0 with
      | none => rw [hl] at h; simp at h
      | some pending =>
        rw [hl] at h
        by_cases hc : pending = [] ∨ rec ∉ pending
        · simp [hc] at h
        · simp [hc] at h
          split at h
          · simp at h
            obtain ⟨hm', hev⟩ := h
            rw [← hev]
            refine ⟨rfl, rfl, rfl, rfl, ?_⟩
            rw [← hm']
            exact notPending_remove_mono (notPending_discard m d0 rec) d0
          · simp at h
            obtain ⟨hm', hev⟩ := h
            rw [← hev]
            refine ⟨rfl, rfl, rfl, rfl, ?_⟩
            rw [← hm']
            exact notPending_discard m d0 rec

/-- Under NotPending, a run of acks emits no (d, r) event at all. -/
theorem runAcks_no_event {d r : Str} (calls : List Room.AckCall) :
    ∀ m : Room.PendingMap, NotPending m d r →
    ∀ e ∈ (Room.runAcks m calls).2, ¬(e.delivery_id = d ∧ e.recipient = r) := by
  induction calls with
  | nil => intro m hnp e he; simp [Room.runAcks] at he
  | cons c cs ih =>
    intro m hnp e he
    unfold Room.runAcks at he
    rw [show Room._ack_delivery m c.delivery_id c.recipient c.sender c.round_number
        = ((Room._ack_delivery m c.delivery_id c.recipient c.sender c.round_number).1,
           (Room._ack_delivery m c.delivery_id c.recipient c.sender c.round_number).2)
      from rfl] at he
    set m' := (Room._ack_delivery m c.delivery_id c.recipient c.sender c.round_number).1 with hm'
    set evo := (Room._ack_delivery m c.delivery_id c.recipient c.sender c.round_number).2 with hevo
    have hnp' : NotPending m' d r :=
      ack_preserves_notPending hnp c.delivery_id c.recipient c.sender c.round_number
    simp only [List.mem_append] at he
    rcases he with he | he
    · cases hevo2 : evo with
      | none => rw [hevo2] at he; simp at he
      | some ev =>
        rw [hevo2] at he
        simp at he
        subst he
        rintro ⟨hd, hr⟩
        have hack : Room._ack_delivery m c.delivery_id c.recipient c.sender c.round_number
            = (m', some e) := by
          rw [hm', hevo2.symm.trans hevo.symm]
        have hs := ack_event_shape hack
        have hdid : c.delivery_id = some d := by rw [hs.1, hd]
        have hrec : c.recipient = r := by rw [← hs.2.1, hr]
        have hno := ack_noop_when_notPending hnp c.sender c.round_number
        rw [← hdid, ← hrec] at hno
        rw [hno] at hack
        simp at hack
    · exact ih m' hnp' e he

/-- At most one (d, r) ack event over any run of acks. -/
theorem runAcks_at_most_one (calls : List Room.AckCall) :
    ∀ m : Room.PendingMap, ∀ d r : Str,
    ((Room.runAcks m calls).2.filter
      (fun e => e.delivery_id == d && e.recipient == r)).length ≤ 1 := by
  induction calls with
  | nil => intro m d r; simp [Room.runAcks]
  | cons c cs ih =>
    intro m d r
    unfold Room.runAcks
    cases hack : Room._ack_delivery m c.delivery_id c.recipient c.sender c.round_number with
    | mk m' evo =>
      simp only []
      rw [List.filter_append, List.length_append]
      cases evo with
      | none =>
        simp only [Option.toList_none, List.filter_nil, List.length_nil, Nat.zero_add]
        exact ih m' d r
      | some ev =>
        by_cases hmatch : (ev.delivery_id == d && ev.recipient == r) = true
        · have hs := ack_event_shape hack
          have hmatch' : ev.delivery_id = d ∧ ev.recipient = r := by
            simpa using hmatch
          have hnp' : NotPending m' d r := by
            have hx := hs.2.2.2.2
            rw [hmatch'.1] at hx
            rw [← hs.2.1, hmatch'.2] at hx
            exact hx
          have hrest : (Room.runAcks m' cs).2.filter
              (fun e => e.delivery_id == d && e.recipient == r) = [] := by
            rw [List.filter_eq_nil]
            intro e he
            have := runAcks_no_event cs m' hnp' e he
            simp only [Bool.and_eq_true, beq_iff_eq]
            rintro ⟨h1, h2⟩
            exact this ⟨h1, h2⟩
          rw [hrest]
          simp [hmatch]
        · simp only [Option.toList_some, List.filter, hmatch]
          simp only [List.length_nil, Nat.zero_add]
          exact ih m' d r

/-- C10: acknowledging a delivery is idempotent per recipient.
_ack_delivery emits an AgentDeliveryAcked and removes the recipient from
the pending set only when the delivery id is known and the recipient is
still pending; an ack with no delivery id, an unknown delivery id, or an
already-acked recipient leaves delivery_pending unchanged and emits
nothing, and over any sequence of acks at most one AgentDeliveryAcked
exists per (delivery_id, recipient). -/
theorem C10_ack_idempotent (m : Room.PendingMap) (d rec snd : Str)
    (rnd : Option Nat) :
    (Room._ack_delivery m none rec snd rnd = (m, none)) ∧
    (Room.pendingLookup m d = none →
      Room._ack_delivery m (some d) rec snd rnd = (m, none)) ∧
    (∀ s, Room.pendingLookup m d = some s → rec ∉ s →
      Room._ack_delivery m (some d) rec snd rnd = (m, none)) ∧
    (∀ m' ev, Room._ack_delivery m (some d) rec snd rnd = (m', some ev) →
      ev = ⟨d, rec, snd, rnd⟩ ∧
      NotPending m' d rec ∧
      (∀ snd' rnd', Room._ack_delivery m' (some d) rec snd' rnd' = (m', none))) ∧
    (∀ calls : List Room.AckCall,
      ((Room.runAcks m calls).2.filter
        (fun e => e.delivery_id == d && e.recipient == rec)).length ≤ 1) := by
  refine ⟨rfl, ?_, ?_, ?_, fun calls => runAcks_at_most_one calls m d rec⟩
  · intro hl
    unfold Room._ack_delivery
    by_cases he : d.isEmpty
    · simp [he]
    · simp [he, hl]
  · intro s hl hmem
    unfold Room._ack_delivery
    by_cases he : d.isEmpty
    · simp [he]
    · simp [he, hl, Or.inr hmem]
  · intro m' ev h
    have hs := ack_event_shape h
    have hdid : d = ev.delivery_id := by simpa using hs.1
    have hnp : NotPending m' d rec := by rw [hdid]; exact hs.2.2.2.2
    refine ⟨?_, hnp, fun snd' rnd' => ack_noop_when_notPending hnp snd' rnd'⟩
    cases ev with
    | mk ed er es ern =>
      simp at hdid hs ⊢
      exact ⟨hdid.symm, hs.2.1, hs.2.2.1, hs.2.2.2.1⟩

/-- Witness for C10_ack_idempotent: a two-recipient delivery; acking b
emits the event and leaves a pending; the duplicate ack, the missing id,
and the unknown id are all no-ops. -/
theorem C10_ack_idempotent_witness :
    Room._ack_delivery [(strOf "d1", [strOf "a", strOf "b"])] (some (strOf "d1"))
        (strOf "b") (strOf "user") (some 1) =
      ([(strOf "d1", [strOf "a"])],
       some ⟨strOf "d1", strOf "b", strOf "user", some 1⟩) ∧
    Room._ack_delivery [(strOf "d1", [strOf "a"])] (some (strOf "d1"))
        (strOf "b") (strOf "x") none =
      ([(strOf "d1", [strOf "a"])], none) ∧
    Room._ack_delivery [(strOf "d1", [strOf "a"])] (some (strOf "d9"))
        (strOf "a") (strOf "x") none =
      ([(strOf "d1", [strOf "a"])], none) := by
  have h := C10_ack_idempotent [(strOf "d1", [strOf "a"])] (strOf "d9")
    (strOf "a") (strOf "x") none
  refine ⟨by decide, ?_, ?_⟩
  · have h2 := C10_ack_idempotent [(strOf "d1", [strOf "a"])] (strOf "d1")
      (strOf "b") (strOf "x") none
    exact h2.2.2.1 [strOf "a"] (by decide) (by decide)
  · exact h.2.1 (by decide)

/-- A prefix of failing attempts unrolls to its failure trace. -/
theorem sendLoop_failPrefix (prompt : Str) :
    ∀ (fs : List Persistent.AttemptResult) (retries : Nat)
      (l : List Persistent.AttemptResult),
    (∀ f ∈ fs, (Persistent.attemptFail? f).isSome = true) →
    retries + fs.length ≤ Persistent.MAX_RETRIES →
    Persistent.sendLoop prompt retries (fs ++ l) =
      Persistent.failTrace prompt retries fs ++
        Persistent.sendLoop prompt (retries + fs.length) l := by
  intro fs
  induction fs with
  | nil => intro retries l _ _; simp [Persistent.failTrace]
  | cons f fs ih =>
    intro retries l hf hlen
    obtain ⟨reason, hreason⟩ := Option.isSome_iff_exists.mp (hf f (by simp))
    have hle : ¬(retries + 1 > Persistent.MAX_RETRIES) := by
      simp [Persistent.MAX_RETRIES] at hlen ⊢
      omega
    simp only [List.cons_append, List.append_eq, Persistent.sendLoop, hreason, hle,
      if_false]
    have hL : retries + (f :: fs).length = retries + 1 + fs.length := by
      simp only [List.length_cons]; omega
    rw [hL, ih (retries + 1) l (fun g hg => hf g (by simp [hg]))
      (by simp only [List.length_cons] at hlen; omega)]
    simp [Persistent.failTrace, hreason]

/-- C3: a turn that ends without a TurnComplete is an error; each of the
first three consecutive failures n = 1, 2, 3 makes send_and_stream yield
ProcessRestarted(retry = n), sleep BACKOFF_BASE * 2 ^ (n - 1) seconds, kill
the stale subprocess, and resend the same prompt; the fourth consecutive
failure propagates to the caller. -/
theorem C3_supervisor_retry (prompt : Str) (fs : List Persistent.AttemptResult)
    (a : Persistent.AttemptResult) (rest : List Persistent.AttemptResult)
    (hf : ∀ f ∈ fs, (Persistent.attemptFail? f).isSome = true) :
    (∀ evs : List AgentEvent, evs.any AgentEvent.isTurnComplete = false →
      Persistent.attemptFail? (.ok evs) =
        some (strOf "turn ended without completion marker")) ∧
    (fs.length ≤ Persistent.MAX_RETRIES → Persistent.attemptFail? a = none →
      Persistent.send_and_stream prompt (fs ++ a :: rest) =
        Persistent.failTrace prompt 0 fs ++
          Persistent.SupAction.send prompt ::
            (Persistent.attemptEvents a).map Persistent.SupAction.yieldEv) ∧
    (∀ reason, fs.length = Persistent.MAX_RETRIES →
      Persistent.attemptFail? a = some reason →
      Persistent.send_and_stream prompt (fs ++ a :: rest) =
        Persistent.failTrace prompt 0 fs ++
          Persistent.SupAction.send prompt ::
            ((Persistent.attemptEvents a).map Persistent.SupAction.yieldEv ++
              [Persistent.SupAction.raiseErr reason])) := by
  refine ⟨?_, ?_, ?_⟩
  · intro evs hno
    simp [Persistent.attemptFail?, hno]
  · intro hlen ha
    unfold Persistent.send_and_stream
    rw [sendLoop_failPrefix prompt fs 0 (a :: rest) hf (by simpa using hlen)]
    simp [Persistent.sendLoop, ha]
  · intro reason hlen ha
    unfold Persistent.send_and_stream
    rw [sendLoop_failPrefix prompt fs 0 (a :: rest) hf (by simp [hlen])]
    have hgt : 0 + fs.length + 1 > Persistent.MAX_RETRIES := by
      simp [hlen]
    simp [Persistent.sendLoop, ha, hgt]
    omega

theorem C3_supervisor_retry_witness :
    Persistent.send_and_stream (strOf "p")
        [.exn [] (strOf "broken pipe"),
         .ok [.turnComplete (strOf "hi") none true none]] =
      Persistent.failTrace (strOf "p") 0 [.exn [] (strOf "broken pipe")] ++
        Persistent.SupAction.send (strOf "p") ::
          (Persistent.attemptEvents
              (.ok [.turnComplete (strOf "hi") none true none])).map
            Persistent.SupAction.yieldEv :=
  (C3_supervisor_retry (strOf "p") [.exn [] (strOf "broken pipe")]
      (.ok [.turnComplete (strOf "hi") none true none]) [] (by decide)).2.1
    (by decide) (by decide)

namespace Claude

/-- The payload of a TextDelta event, none for every other event kind. -/
def textOf? : AgentEvent → Option Str
  | .textDelta t => some t
  | _ => none

/-- The TextDelta payloads of an event list, in order. -/
def textPayloads (evs : List AgentEvent) : List Str :=
  evs.filterMap textOf?

/-- assistantLine folded over the assistant lines of a turn. -/
def runAssistant (home : Str) (st : State) : List J → List AgentEvent × State
  | [] => ([], st)
  | m :: ms =>
    let p := assistantLine home st m
    let q := runAssistant home p.2 ms
    (p.1 ++ q.1, q.2)

theorem textOf?_serverToolBadge (j : J) : textOf? (serverToolBadge j) = none := by
  simp only [serverToolBadge]
  repeat' split
  all_goals rfl

theorem textPayloads_map_none {α : Type} (f : α → AgentEvent)
    (h : ∀ a, textOf? (f a) = none) (l : List α) :
    textPayloads (l.map f) = [] := by
  induction l with
  | nil => rfl
  | cons a l ih =>
    simp [textPayloads, List.filterMap_cons, h a] at ih ⊢
    exact ih

theorem textPayloads_append (a b : List AgentEvent) :
    textPayloads (a ++ b) = textPayloads a ++ textPayloads b := by
  simp [textPayloads]

theorem thinkStep_spec (st : State) (c : List J) :
    textPayloads (thinkStep st c).1 = [] ∧
    (thinkStep st c).2.last_cumulative = st.last_cumulative ∧
    (thinkStep st c).2.last_message_id = st.last_message_id := by
  simp only [thinkStep]
  repeat' split
  all_goals exact ⟨rfl, rfl, rfl⟩

theorem toolStep_spec (home : Str) (st : State) (c : List J) :
    textPayloads (toolStep home st c).1 = [] ∧
    (toolStep home st c).2.last_cumulative = st.last_cumulative ∧
    (toolStep home st c).2.last_message_id = st.last_message_id := by
  simp only [toolStep]
  exact ⟨textPayloads_map_none (fun (t : J) =>
    AgentEvent.toolBadge (t.getS (strOf "name"))
      (_extract_tool_detail home (t.getD (strOf "input") (.jobj []))))
    (fun a => rfl) _, trivial, trivial⟩

theorem serverStep_spec (st : State) (c : List J) :
    textPayloads (serverStep st c).1 = [] ∧
    (serverStep st c).2.last_cumulative = st.last_cumulative ∧
    (serverStep st c).2.last_message_id = st.last_message_id := by
  simp only [serverStep]
  exact ⟨textPayloads_map_none serverToolBadge textOf?_serverToolBadge _, trivial, trivial⟩

theorem resultStep_spec (st : State) (c : List J) :
    textPayloads (resultStep st c).1 = [] ∧
    (resultStep st c).2.last_cumulative = st.last_cumulative ∧
    (resultStep st c).2.last_message_id = st.last_message_id := by
  simp only [resultStep]
  exact ⟨textPayloads_map_none toolResultEvent (fun a => rfl) _, trivial, trivial⟩

theorem textStep_spec (st : State) (c : List J)
    (htx : (blocksOf c (strOf "text")).isEmpty = false) :
    textPayloads (textStep st c).1 =
      (if (((blocksOf c (strOf "text")).map
              (fun p => p.getS (strOf "text"))).flatten).drop
            st.last_cumulative.length = [] then []
       else [(((blocksOf c (strOf "text")).map
              (fun p => p.getS (strOf "text"))).flatten).drop
            st.last_cumulative.length]) ∧
    (textStep st c).2.last_cumulative =
      ((blocksOf c (strOf "text")).map (fun p => p.getS (strOf "text"))).flatten ∧
    (textStep st c).2.last_message_id = st.last_message_id := by
  have hne : ((blocksOf c (strOf "text")).map
      (fun p => p.getS (strOf "text"))).isEmpty = false := by
    cases h : blocksOf c (strOf "text") with
    | nil => rw [h] at htx; exact absurd htx (by simp)
    | cons x xs => rfl
  simp only [textStep, hne, Bool.not_false, if_true]
  refine ⟨?_, trivial, trivial⟩
  by_cases hde : (((blocksOf c (strOf "text")).map
      (fun p => p.getS (strOf "text"))).flatten).drop st.last_cumulative.length = []
  · simp [hde, List.isEmpty_iff.mpr hde, textPayloads]
  · simp [hde, (List.isEmpty_iff (l := (((blocksOf c (strOf "text")).map
        (fun p => p.getS (strOf "text"))).flatten).drop
        st.last_cumulative.length)).not.mpr hde, textPayloads, textOf?,
      List.filterMap_cons]

theorem assistantLine_text (home : Str) (st : State) (msg : J)
    (hct : (msgContent msg).isEmpty = false)
    (htx : (blocksOf (msgContent msg) (strOf "text")).isEmpty = false)
    (hid : msg.getS (strOf "id") = [] ∨
      some (msg.getS (strOf "id")) = st.last_message_id) :
    textPayloads (assistantLine home st msg).1 =
      (if (msgCumulative msg).drop st.last_cumulative.length = [] then []
       else [(msgCumulative msg).drop st.last_cumulative.length]) ∧
    (assistantLine home st msg).2.last_cumulative = msgCumulative msg ∧
    (assistantLine home st msg).2.last_message_id = st.last_message_id := by
  have hcond : (!(msg.getS (strOf "id")).isEmpty &&
      some (msg.getS (strOf "id")) != st.last_message_id) = false := by
    rcases hid with h | h <;> simp [h]
  obtain ⟨hp1, hl1, hm1⟩ := thinkStep_spec st (msgContent msg)
  obtain ⟨hp2, hl2, hm2⟩ := toolStep_spec home
    (thinkStep st (msgContent msg)).2 (msgContent msg)
  obtain ⟨hp3, hl3, hm3⟩ := serverStep_spec
    (toolStep home (thinkStep st (msgContent msg)).2
      (msgContent msg)).2 (msgContent msg)
  obtain ⟨hp4, hl4, hm4⟩ := resultStep_spec
    (serverStep (toolStep home
      (thinkStep st (msgContent msg)).2
      (msgContent msg)).2 (msgContent msg)).2 (msgContent msg)
  obtain ⟨hp5, hl5, hm5⟩ := textStep_spec
    (resultStep (serverStep (toolStep home
      (thinkStep st (msgContent msg)).2
      (msgContent msg)).2 (msgContent msg)).2
      (msgContent msg)).2 (msgContent msg) htx
  have hmc : ((blocksOf (msgContent msg) (strOf "text")).map
      (fun p => p.getS (strOf "text"))).flatten = msgCumulative msg := rfl
  unfold assistantLine
  simp only [hct, hcond, Bool.false_eq_true, if_false, textPayloads_append]
  rw [hp1, hp2, hp3, hp4, hp5]
  rw [hmc] at hl5 ⊢
  rw [hl4, hl3, hl2, hl1] at hp5 ⊢
  rw [hm4, hm3, hm2, hm1] at hm5
  simp only [List.nil_append, List.append_nil]
  exact ⟨trivial, hl5, hm5⟩

theorem prefix_append_drop {a b : Str} (h : a <+: b) :
    a ++ b.drop a.length = b := by
  obtain ⟨t, rfl⟩ := h
  simp

theorem prefix_drop_nil_eq {a b : Str} (h : a <+: b)
    (hde : b.drop a.length = []) : b = a := by
  have hlen : b.length ≤ a.length := by
    have := congrArg List.length hde
    simp at this
    omega
  exact (List.IsPrefix.eq_of_length h (Nat.le_antisymm h.length_le hlen)).symm

theorem runAssistant_roundtrip (home : Str) :
    ∀ (ms : List J) (st : State),
    (∀ m ∈ ms, (msgContent m).isEmpty = false ∧
      (blocksOf (msgContent m) (strOf "text")).isEmpty = false ∧
      (m.getS (strOf "id") = [] ∨
        some (m.getS (strOf "id")) = st.last_message_id)) →
    List.Chain' (fun a b => a <+: b)
      (st.last_cumulative :: ms.map msgCumulative) →
    st.last_cumulative ++ (textPayloads (runAssistant home st ms).1).flatten =
      (ms.map msgCumulative).getLastD st.last_cumulative ∧
    (runAssistant home st ms).2.last_cumulative =
      (ms.map msgCumulative).getLastD st.last_cumulative ∧
    (runAssistant home st ms).2.last_message_id = st.last_message_id := by
  intro ms
  induction ms with
  | nil =>
    intro st _ _
    simp [runAssistant, textPayloads]
  | cons m ms ih =>
    intro st h hchain
    obtain ⟨hct, htx, hid⟩ := h m (by simp)
    obtain ⟨hp, hl, hmid⟩ := assistantLine_text home st m hct htx hid
    rw [List.map_cons, List.chain'_cons] at hchain
    obtain ⟨hpre, hchain'⟩ := hchain
    have h' : ∀ m' ∈ ms, (msgContent m').isEmpty = false ∧
        (blocksOf (msgContent m') (strOf "text")).isEmpty = false ∧
        (m'.getS (strOf "id") = [] ∨ some (m'.getS (strOf "id")) =
          (assistantLine home st m).2.last_message_id) := by
      intro m' hm'
      obtain ⟨a, b, c⟩ := h m' (by simp [hm'])
      exact ⟨a, b, by rw [hmid]; exact c⟩
    have hchain2 : List.Chain' (fun a b => a <+: b)
        ((assistantLine home st m).2.last_cumulative :: ms.map msgCumulative) := by
      rw [hl]; exact hchain'
    obtain ⟨ih1, ih2, ih3⟩ := ih (assistantLine home st m).2 h' hchain2
    rw [hl] at ih1 ih2
    refine ⟨?_, ?_, ?_⟩
    · show st.last_cumulative ++ (textPayloads
        ((assistantLine home st m).1 ++
          (runAssistant home (assistantLine home st m).2 ms).1)).flatten = _
      rw [textPayloads_append, List.flatten_append, hp]
      by_cases hde : (msgCumulative m).drop st.last_cumulative.length = []
      · have heq : msgCumulative m = st.last_cumulative :=
          prefix_drop_nil_eq hpre hde
        rw [if_pos hde, List.flatten_nil, List.nil_append, List.map_cons,
          List.getLastD_cons, ← heq]
        exact ih1
      · rw [if_neg hde]
        have hXd : ([(msgCumulative m).drop st.last_cumulative.length] :
            List Str).flatten = (msgCumulative m).drop st.last_cumulative.length := by
          simp
        rw [hXd, List.map_cons, List.getLastD_cons, ← List.append_assoc,
          prefix_append_drop hpre]
        exact ih1
    · show (runAssistant home (assistantLine home st m).2 ms).2.last_cumulative = _
      rw [ih2, List.map_cons, List.getLastD_cons]
    · show (runAssistant home (assistantLine home st m).2 ms).2.last_message_id = _
      rw [ih3, hmid]

theorem assistantLine_reset (home : Str) (st : State) (msg : J)
    (hct : (msgContent msg).isEmpty = false)
    (hmne : (msg.getS (strOf "id")).isEmpty = false)
    (hdiff : some (msg.getS (strOf "id")) ≠ st.last_message_id) :
    assistantLine home st msg =
      assistantLine home (resetForId st (msg.getS (strOf "id"))) msg := by
  have h1 : (!(msg.getS (strOf "id")).isEmpty &&
      some (msg.getS (strOf "id")) != st.last_message_id) = true := by
    simp [hmne, hdiff]
  have h2 : (!(msg.getS (strOf "id")).isEmpty &&
      some (msg.getS (strOf "id")) !=
        (resetForId st (msg.getS (strOf "id"))).last_message_id) = false := by
    simp [resetForId]
  unfold assistantLine
  simp only [hct, h1, h2, Bool.false_eq_true, if_false, if_true]

end Claude

/-- Two assistant lines of one Claude turn: cumulative text "Hel", then
"Hello"; no explicit message id. -/
def c6m1 : J :=
  .jobj [(strOf "content", .jarr [.jobj [(strOf "type", .js (strOf "text")),
    (strOf "text", .js (strOf "Hel"))]])]

def c6m2 : J :=
  .jobj [(strOf "content", .jarr [.jobj [(strOf "type", .js (strOf "text")),
    (strOf "text", .js (strOf "Hello"))]])]

/-- C6: for an assistant line of the current message (same or absent
message.id) the Claude adapter emits one TextDelta carrying exactly the
suffix cumulative[len(last):], or nothing when that suffix is empty; when
the stored text is a prefix of the new cumulative text, the stored text
followed by the emitted payloads reconstructs the cumulative text
(previously seen text is never re-emitted); over a turn whose cumulative
texts extend one another, the in-order concatenation of all emitted
TextDelta payloads equals the final cumulative text; and an assistant line
with a fresh non-empty message.id behaves exactly as on the reset state
(empty cumulative text/thinking, zeroed seen-tool counters, new id). -/
theorem C6_claude_text_deltas (home : Str) :
    (∀ (st : Claude.State) (msg : J),
      (Claude.msgContent msg).isEmpty = false →
      (Claude.blocksOf (Claude.msgContent msg) (strOf "text")).isEmpty = false →
      (msg.getS (strOf "id") = [] ∨
        some (msg.getS (strOf "id")) = st.last_message_id) →
      Claude.textPayloads (Claude.assistantLine home st msg).1 =
        (if (Claude.msgCumulative msg).drop st.last_cumulative.length = []
         then []
         else [(Claude.msgCumulative msg).drop st.last_cumulative.length]) ∧
      (st.last_cumulative <+: Claude.msgCumulative msg →
        st.last_cumulative ++
            (Claude.textPayloads (Claude.assistantLine home st msg).1).flatten =
          Claude.msgCumulative msg) ∧
      (Claude.assistantLine home st msg).2.last_cumulative =
        Claude.msgCumulative msg) ∧
    (∀ (ms : List J) (st : Claude.State),
      (∀ m ∈ ms, (Claude.msgContent m).isEmpty = false ∧
        (Claude.blocksOf (Claude.msgContent m) (strOf "text")).isEmpty = false ∧
        (m.getS (strOf "id") = [] ∨
          some (m.getS (strOf "id")) = st.last_message_id)) →
      List.Chain' (fun a b => a <+: b)
        (st.last_cumulative :: ms.map Claude.msgCumulative) →
      st.last_cumulative ++
          (Claude.textPayloads (Claude.runAssistant home st ms).1).flatten =
        (ms.map Claude.msgCumulative).getLastD st.last_cumulative) ∧
    (∀ (st : Claude.State) (msg : J),
      (Claude.msgContent msg).isEmpty = false →
      (msg.getS (strOf "id")).isEmpty = false →
      some (msg.getS (strOf "id")) ≠ st.last_message_id →
      Claude.assistantLine home st msg =
        Claude.assistantLine home
          (Claude.resetForId st (msg.getS (strOf "id"))) msg) := by
  refine ⟨?_, ?_, ?_⟩
  · intro st msg hct htx hid
    obtain ⟨hp, hl, _⟩ := Claude.assistantLine_text home st msg hct htx hid
    refine ⟨hp, ?_, hl⟩
    intro hpre
    rw [hp]
    by_cases hde : (Claude.msgCumulative msg).drop st.last_cumulative.length = []
    · rw [if_pos hde]
      simp only [List.flatten_nil, List.append_nil]
      exact (Claude.prefix_drop_nil_eq hpre hde).symm
    · rw [if_neg hde]
      have hXd : ([(Claude.msgCumulative msg).drop st.last_cumulative.length] :
          List Str).flatten =
          (Claude.msgCumulative msg).drop st.last_cumulative.length := by simp
      rw [hXd]
      exact Claude.prefix_append_drop hpre
  · intro ms st h hchain
    exact (Claude.runAssistant_roundtrip home ms st h hchain).1
  · intro st msg hct hmne hdiff
    exact Claude.assistantLine_reset home st msg hct hmne hdiff

theorem C6_claude_text_deltas_witness :
    ([] : Str) ++ (Claude.textPayloads
        (Claude.runAssistant [] {} [c6m1, c6m2]).1).flatten =
      ([c6m1, c6m2].map Claude.msgCumulative).getLastD [] :=
  (C6_claude_text_deltas []).2.1 [c6m1, c6m2] {} (by decide)
    (by
      refine (List.chain'_cons).mpr ⟨⟨strOf "Hel", rfl⟩,
        (List.chain'_cons).mpr ⟨⟨strOf "lo", rfl⟩, ?_⟩⟩
      exact List.chain'_singleton _)

namespace Kimi

/-- A JSON-RPC ApprovalRequest line: an id, method "request", and params
carrying type ApprovalRequest with an object payload. -/
def approvalLine (reqId payload : J) : J :=
  .jobj [(strOf "id", reqId),
         (strOf "method", .js (strOf "request")),
         (strOf "params", .jobj
           [(strOf "type", .js (strOf "ApprovalRequest")),
            (strOf "payload", payload)])]

/-- The decision string sent back for an awaited permission outcome:
approve only on an explicit approval; a timeout is a fail-closed reject. -/
def permDecision : PermOutcome → Str
  | .resolved approved => if approved then strOf "approve" else strOf "reject"
  | .timeout => strOf "reject"

/-- payload.get("id") or payload.get("request_id") or "". -/
def approvalResponseId (fs : List (Str × J)) : J :=
  firstTruthy [(J.jobj fs).lookup (strOf "id"),
    (J.jobj fs).lookup (strOf "request_id")]

end Kimi

theorem kimi_approval_step (home : Str) (cfg : Kimi.Config)
    (oracle : Str → Kimi.PermOutcome) (st : Kimi.State)
    (rid : Str) (fs : List (Str × J))
    (hmode : (cfg.permission_mode == strOf "bypass") = false)
    (htp : cfg.permission_timeout_pos = true) :
    Kimi.step home cfg oracle st
        (Kimi.approvalLine (J.js rid) (J.jobj fs)) =
      .next
        [.register (Kimi.jToStr (Kimi.approvalResponseId fs)),
         .emit (.permissionRequest (Kimi.jToStr (Kimi.approvalResponseId fs))
           (Claude.getSD (J.jobj fs) (strOf "action") (strOf "unknown"))
           (J.jobj fs) ((J.jobj fs).getS (strOf "description"))),
         .awaitPerm (Kimi.jToStr (Kimi.approvalResponseId fs))
           (oracle (Kimi.jToStr (Kimi.approvalResponseId fs))),
         .sendResponse (J.js rid) (.jobj
           [(strOf "request_id", Kimi.approvalResponseId fs),
            (strOf "response", .js (Kimi.permDecision
              (oracle (Kimi.jToStr (Kimi.approvalResponseId fs)))))]),
         .emit (.toolBadge
           (if Kimi.permDecision (oracle (Kimi.jToStr (Kimi.approvalResponseId fs)))
              == strOf "approve"
            then strOf "Approved" else strOf "Denied") [])] st := by
  obtain ⟨pm, tp⟩ := cfg
  simp only at htp hmode
  subst htp
  have h1 : Kimi.step home ⟨pm, true⟩ oracle st
      (Kimi.approvalLine (J.js rid) (J.jobj fs)) =
    (if (pm == strOf "bypass") = true
     then Kimi.StepRes.next
       [.sendResponse (J.js rid) (.jobj
          [(strOf "request_id", Kimi.approvalResponseId fs),
           (strOf "response", .js (strOf "approve"))]),
        .emit (.toolBadge (strOf "Approved") [])] st
     else
       match oracle (Kimi.jToStr (Kimi.approvalResponseId fs)), (true : Bool) with
       | .timeout, false =>
         Kimi.StepRes.hangs
           [.register (Kimi.jToStr (Kimi.approvalResponseId fs)),
            .emit (.permissionRequest (Kimi.jToStr (Kimi.approvalResponseId fs))
              (Claude.getSD (J.jobj fs) (strOf "action") (strOf "unknown"))
              (J.jobj fs) ((J.jobj fs).getS (strOf "description")))]
       | _, _ =>
         Kimi.StepRes.next
           ([.register (Kimi.jToStr (Kimi.approvalResponseId fs)),
             .emit (.permissionRequest (Kimi.jToStr (Kimi.approvalResponseId fs))
               (Claude.getSD (J.jobj fs) (strOf "action") (strOf "unknown"))
               (J.jobj fs) ((J.jobj fs).getS (strOf "description")))] ++
            [.awaitPerm (Kimi.jToStr (Kimi.approvalResponseId fs))
               (oracle (Kimi.jToStr (Kimi.approvalResponseId fs))),
             .sendResponse (J.js rid) (.jobj
               [(strOf "request_id", Kimi.approvalResponseId fs),
                (strOf "response", .js (match
                    oracle (Kimi.jToStr (Kimi.approvalResponseId fs)) with
                  | .resolved approved =>
                    if approved then strOf "approve" else strOf "reject"
                  | .timeout => strOf "reject"))]),
             .emit (.toolBadge
               (if (match oracle (Kimi.jToStr (Kimi.approvalResponseId fs)) with
                    | .resolved approved =>
                      if approved then strOf "approve" else strOf "reject"
                    | .timeout => strOf "reject") == strOf "approve"
                then strOf "Approved" else strOf "Denied") [])]) st) := rfl
  rw [h1]
  simp only [hmode, Bool.false_eq_true, if_false]
  cases hout : oracle (Kimi.jToStr (Kimi.approvalResponseId fs)) with
  | resolved a => simp [Kimi.permDecision]
  | timeout => simp [Kimi.permDecision]

/-- The payload of the witness approval request: a permission id and an
action name. -/
def c7fs : List (Str × J) :=
  [(strOf "id", .js (strOf "p1")), (strOf "action", .js (strOf "edit"))]

/-- C7: in a non-bypass permission mode with a positive permission timeout,
an ApprovalRequest line makes the Kimi adapter register the pending future
keyed by the payload's request id and only then emit the PermissionRequest
event, await the future, send back a response whose decision is "approve"
only for an explicit approval — a timeout is a fail-closed "reject" — and
emit the decision badge; the step does not hang, and the remaining line
stream is processed exactly as if the approval line were absent. -/
theorem C7_kimi_approval (home : Str) (cfg : Kimi.Config)
    (oracle : Str → Kimi.PermOutcome) (st : Kimi.State)
    (rid : Str) (fs : List (Str × J))
    (hmode : (cfg.permission_mode == strOf "bypass") = false)
    (htp : cfg.permission_timeout_pos = true) :
    Kimi.step home cfg oracle st
        (Kimi.approvalLine (J.js rid) (J.jobj fs)) =
      .next
        [.register (Kimi.jToStr (Kimi.approvalResponseId fs)),
         .emit (.permissionRequest (Kimi.jToStr (Kimi.approvalResponseId fs))
           (Claude.getSD (J.jobj fs) (strOf "action") (strOf "unknown"))
           (J.jobj fs) ((J.jobj fs).getS (strOf "description"))),
         .awaitPerm (Kimi.jToStr (Kimi.approvalResponseId fs))
           (oracle (Kimi.jToStr (Kimi.approvalResponseId fs))),
         .sendResponse (J.js rid) (.jobj
           [(strOf "request_id", Kimi.approvalResponseId fs),
            (strOf "response", .js (Kimi.permDecision
              (oracle (Kimi.jToStr (Kimi.approvalResponseId fs)))))]),
         .emit (.toolBadge
           (if Kimi.permDecision (oracle (Kimi.jToStr (Kimi.approvalResponseId fs)))
              == strOf "approve"
            then strOf "Approved" else strOf "Denied") [])] st ∧
    Kimi.permDecision .timeout = strOf "reject" ∧
    (∀ rest : List J,
      Kimi.readLoop home cfg oracle st
          (Kimi.approvalLine (J.js rid) (J.jobj fs) :: rest) =
        ([.register (Kimi.jToStr (Kimi.approvalResponseId fs)),
          .emit (.permissionRequest (Kimi.jToStr (Kimi.approvalResponseId fs))
            (Claude.getSD (J.jobj fs) (strOf "action") (strOf "unknown"))
            (J.jobj fs) ((J.jobj fs).getS (strOf "description"))),
          .awaitPerm (Kimi.jToStr (Kimi.approvalResponseId fs))
            (oracle (Kimi.jToStr (Kimi.approvalResponseId fs))),
          .sendResponse (J.js rid) (.jobj
            [(strOf "request_id", Kimi.approvalResponseId fs),
             (strOf "response", .js (Kimi.permDecision
               (oracle (Kimi.jToStr (Kimi.approvalResponseId fs)))))]),
          .emit (.toolBadge
            (if Kimi.permDecision
                 (oracle (Kimi.jToStr (Kimi.approvalResponseId fs)))
               == strOf "approve"
             then strOf "Approved" else strOf "Denied") [])] ++
           (Kimi.readLoop home cfg oracle st rest).1,
         (Kimi.readLoop home cfg oracle st rest).2)) := by
  have hstep := kimi_approval_step home cfg oracle st rid fs hmode htp
  refine ⟨hstep, rfl, ?_⟩
  intro rest
  simp only [Kimi.readLoop, hstep]

theorem C7_kimi_approval_witness :
    Kimi.step [] ⟨strOf "acceptEdits", true⟩ (fun _ => .timeout) {}
        (Kimi.approvalLine (J.js (strOf "7")) (J.jobj c7fs)) =
      .next
        [.register (strOf "p1"),
         .emit (.permissionRequest (strOf "p1") (strOf "edit")
           (J.jobj c7fs) []),
         .awaitPerm (strOf "p1") .timeout,
         .sendResponse (J.js (strOf "7")) (.jobj
           [(strOf "request_id", .js (strOf "p1")),
            (strOf "response", .js (strOf "reject"))]),
         .emit (.toolBadge (strOf "Denied") [])] {} :=
  (C7_kimi_approval [] ⟨strOf "acceptEdits", true⟩ (fun _ => .timeout) {}
    (strOf "7") c7fs (by decide) rfl).1

/-- Any TurnComplete among the events. -/
def hasTC (evs : List AgentEvent) : Bool :=
  evs.any AgentEvent.isTurnComplete

/-- The event list is a run of non-TurnComplete events closed by exactly
one final TurnComplete. -/
def singleTrailingTC (evs : List AgentEvent) : Prop :=
  ∃ pre e, evs = pre ++ [e] ∧ hasTC pre = false ∧ e.isTurnComplete = true

theorem hasTC_append (a b : List AgentEvent) :
    hasTC (a ++ b) = (hasTC a || hasTC b) := by
  simp [hasTC, List.any_append]

theorem noTC_map {α : Type} (f : α → AgentEvent)
    (h : ∀ a, (f a).isTurnComplete = false) (l : List α) :
    hasTC (l.map f) = false := by
  induction l with
  | nil => rfl
  | cons a l ih => simp [hasTC, h a] at ih ⊢; exact ih

theorem singleTrailingTC_append_left {a b : List AgentEvent}
    (ha : hasTC a = false) (hb : singleTrailingTC b) :
    singleTrailingTC (a ++ b) := by
  obtain ⟨pre, e, hb1, hb2, hb3⟩ := hb
  refine ⟨a ++ pre, e, by rw [hb1, List.append_assoc], ?_, hb3⟩
  rw [hasTC_append, ha, hb2]
  rfl

theorem noTC_thinkStep (st : Claude.State) (c : List J) :
    hasTC (Claude.thinkStep st c).1 = false := by
  simp only [Claude.thinkStep]
  repeat' split
  all_goals rfl

theorem noTC_toolStep (home : Str) (st : Claude.State) (c : List J) :
    hasTC (Claude.toolStep home st c).1 = false := by
  simp only [Claude.toolStep]
  exact noTC_map (fun (t : J) =>
    AgentEvent.toolBadge (t.getS (strOf "name"))
      (Claude._extract_tool_detail home (t.getD (strOf "input") (.jobj []))))
    (fun a => rfl) _

theorem noTC_serverToolBadge (j : J) :
    (Claude.serverToolBadge j).isTurnComplete = false := by
  simp only [Claude.serverToolBadge]
  repeat' split
  all_goals rfl

theorem noTC_serverStep (st : Claude.State) (c : List J) :
    hasTC (Claude.serverStep st c).1 = false := by
  simp only [Claude.serverStep]
  exact noTC_map Claude.serverToolBadge noTC_serverToolBadge _

theorem noTC_resultStep (st : Claude.State) (c : List J) :
    hasTC (Claude.resultStep st c).1 = false := by
  simp only [Claude.resultStep]
  exact noTC_map Claude.toolResultEvent (fun a => rfl) _

theorem noTC_textStep (st : Claude.State) (c : List J) :
    hasTC (Claude.textStep st c).1 = false := by
  simp only [Claude.textStep]
  repeat' split
  all_goals rfl

theorem noTC_assistantLine (home : Str) (st : Claude.State) (msg : J) :
    hasTC (Claude.assistantLine home st msg).1 = false := by
  simp only [Claude.assistantLine]
  split
  · rfl
  · simp [hasTC_append, noTC_thinkStep, noTC_toolStep, noTC_serverStep,
      noTC_resultStep, noTC_textStep]

theorem claude_step_tc (home : Str) (st : Claude.State) (obj : J) :
    ((Claude.step home st obj).2.2 = true →
      singleTrailingTC (Claude.step home st obj).1) ∧
    ((Claude.step home st obj).2.2 = false →
      hasTC (Claude.step home st obj).1 = false) := by
  simp only [Claude.step]
  repeat' split
  all_goals refine ⟨fun hd => ?_, fun hd => ?_⟩
  all_goals first
    | (simp at hd; done)
    | rfl
    | exact ⟨_, _, rfl, noTC_map Claude.denialEvent (fun a => rfl) _, rfl⟩
    | exact noTC_assistantLine home st _

theorem claude_readLoop_tc (home : Str) :
    ∀ (lines : List J) (st : Claude.State),
    ((Claude.readLoop home st lines).2 = .completed →
      singleTrailingTC (Claude.readLoop home st lines).1) ∧
    (∀ r, (Claude.readLoop home st lines).2 = .failed r →
      hasTC (Claude.readLoop home st lines).1 = false) := by
  intro lines
  induction lines with
  | nil =>
    intro st
    refine ⟨fun h => ?_, fun r h => rfl⟩
    simp [Claude.readLoop] at h
  | cons l rest ih =>
    intro st
    simp only [Claude.readLoop]
    by_cases hd : (Claude.step home st l).2.2 = true
    · rw [if_pos hd]
      refine ⟨fun h => (claude_step_tc home st l).1 hd, fun r h => ?_⟩
      simp at h
    · rw [if_neg hd]
      have hfd : (Claude.step home st l).2.2 = false := Bool.eq_false_iff.mpr hd
      refine ⟨fun h => ?_, fun r h => ?_⟩
      · exact singleTrailingTC_append_left ((claude_step_tc home st l).2 hfd)
          ((ih _).1 h)
      · rw [hasTC_append, (claude_step_tc home st l).2 hfd, (ih _).2 r h]
        rfl

theorem noTC_itemStarted (home : Str) (item : J) :
    hasTC (Codex.itemStartedEvents home item) = false := by
  simp only [Codex.itemStartedEvents]
  repeat' split
  all_goals first
    | rfl
    | exact noTC_map (Codex.fileChangeBadge home) (fun a => rfl) _

theorem noTC_itemCompleted (home : Str) (item : J) :
    hasTC (Codex.itemCompletedEvents home item) = false := by
  simp only [Codex.itemCompletedEvents]
  repeat' split
  all_goals first
    | rfl
    | exact noTC_map (Codex.fileChangeBadge home) (fun a => rfl) _

theorem noTC_infoEvents (home : Str) (obj : J) :
    hasTC (Codex.infoEvents home obj) = false := by
  rw [Codex.infoEvents.eq_def]
  lift_lets
  extract_lets m p delta output msg
  by_cases h1 : (m == strOf "item/agentMessage/delta") = true
  · rw [if_pos h1]; split <;> rfl
  rw [if_neg h1]
  by_cases h2 : (m == strOf "item/reasoning/textDelta") = true
  · rw [if_pos h2]; split <;> rfl
  rw [if_neg h2]
  by_cases h3 : (m == strOf "item/reasoning/summaryTextDelta") = true
  · rw [if_pos h3]; split <;> rfl
  rw [if_neg h3]
  by_cases h4 : (m == strOf "item/reasoning/summaryPartAdded") = true
  · rw [if_pos h4]; rfl
  rw [if_neg h4]
  by_cases h5 : (m == strOf "item/plan/delta") = true
  · rw [if_pos h5]; split <;> rfl
  rw [if_neg h5]
  by_cases h6 : (m == strOf "item/commandExecution/outputDelta") = true
  · rw [if_pos h6]; split <;> rfl
  rw [if_neg h6]
  by_cases h7 : (m == strOf "item/commandExecution/terminalInteraction") = true
  · rw [if_pos h7]; split <;> rfl
  rw [if_neg h7]
  by_cases h8 : (m == strOf "item/fileChange/outputDelta") = true
  · rw [if_pos h8]; split <;> rfl
  rw [if_neg h8]
  by_cases h9 : (m == strOf "item/mcpToolCall/progress") = true
  · rw [if_pos h9]; split <;> rfl
  rw [if_neg h9]
  by_cases h10 : (m == strOf "item/started") = true
  · rw [if_pos h10]; exact noTC_itemStarted home _
  rw [if_neg h10]
  by_cases h11 : (m == strOf "item/completed") = true
  · rw [if_pos h11]; exact noTC_itemCompleted home _
  rw [if_neg h11]
  rfl

theorem codex_step_tc (home : Str) (st : Codex.State) (obj : J) :
    ((Codex.step home st obj).2.2 = true →
      singleTrailingTC (Codex.step home st obj).1) ∧
    ((Codex.step home st obj).2.2 = false →
      hasTC (Codex.step home st obj).1 = false) := by
  unfold Codex.step
  dsimp only
  repeat' split
  all_goals refine ⟨fun hd => ?_, fun hd => ?_⟩
  all_goals first
    | (simp at hd; done)
    | rfl
    | exact ⟨[], _, rfl, rfl, rfl⟩
    | exact noTC_infoEvents home _

theorem codex_readLoop_tc (home : Str) :
    ∀ (lines : List J) (st : Codex.State),
    ((Codex.readLoop home st lines).2 = .completed →
      singleTrailingTC (Codex.readLoop home st lines).1) ∧
    (∀ r, (Codex.readLoop home st lines).2 = .failed r →
      hasTC (Codex.readLoop home st lines).1 = false) := by
  intro lines
  induction lines with
  | nil =>
    intro st
    refine ⟨fun h => ?_, fun r h => rfl⟩
    simp [Codex.readLoop] at h
  | cons l rest ih =>
    intro st
    simp only [Codex.readLoop]
    by_cases hd : (Codex.step home st l).2.2 = true
    · rw [if_pos hd]
      refine ⟨fun h => (codex_step_tc home st l).1 hd, fun r h => ?_⟩
      simp at h
    · rw [if_neg hd]
      have hfd : (Codex.step home st l).2.2 = false := Bool.eq_false_iff.mpr hd
      refine ⟨fun h => ?_, fun r h => ?_⟩
      · exact singleTrailingTC_append_left ((codex_step_tc home st l).2 hfd)
          ((ih _).1 h)
      · rw [hasTC_append, (codex_step_tc home st l).2 hfd, (ih _).2 r h]
        rfl

/-- The TurnComplete discipline of one Kimi step result: a continuing,
raising, or hanging step emits no TurnComplete; a finishing step emits
exactly one. -/
def stepResOk : Kimi.StepRes → Prop
  | .next acts _ => hasTC (Kimi.actEvents acts) = false
  | .finish acts _ => ∃ e, Kimi.actEvents acts = [e] ∧ e.isTurnComplete = true
  | .raise acts _ => hasTC (Kimi.actEvents acts) = false
  | .hangs acts => hasTC (Kimi.actEvents acts) = false

theorem actEvents_append (a b : List Kimi.Act) :
    Kimi.actEvents (a ++ b) = Kimi.actEvents a ++ Kimi.actEvents b := by
  simp [Kimi.actEvents]

theorem actEvents_emit (l : List AgentEvent) :
    Kimi.actEvents (l.map Kimi.Act.emit) = l := by
  induction l with
  | nil => rfl
  | cons e l ih => simp only [List.map_cons, Kimi.actEvents,
      List.filterMap_cons] at ih ⊢; rw [ih]

theorem noTC_assistantPart (home : Str) (p : J) :
    hasTC (Kimi.assistantPartEvents home p).2 = false := by
  simp only [Kimi.assistantPartEvents]
  repeat' split
  all_goals rfl

theorem noTC_kimi_assistant (home : Str) (parts : List J) :
    hasTC (Kimi.actEvents
      ((((parts.map (Kimi.assistantPartEvents home)).map Prod.snd).flatten).map
        Kimi.Act.emit)) = false := by
  induction parts with
  | nil => rfl
  | cons p ps ih =>
    simp only [List.map_cons, List.flatten_cons, List.map_append]
    rw [actEvents_append, hasTC_append, ih, actEvents_emit,
      noTC_assistantPart home p]
    rfl

theorem noTC_kimiInfoActs (home : Str) (m : Str) (params : J) :
    ∀ acts, Kimi.infoActs home m params = some acts →
    hasTC (Kimi.actEvents acts) = false := by
  unfold Kimi.infoActs
  by_cases h1 : (m == strOf "turnbegin" || m == strOf "turn_begin" || m == strOf "turn/begin") = true
  · rw [if_pos h1]
    intro acts h
    try dsimp only at h
    repeat' split at h
    all_goals (injection h with h1; subst h1; rfl)
  rw [if_neg h1]
  by_cases h2 : (m == strOf "stepbegin" || m == strOf "step_begin" || m == strOf "step/begin") = true
  · rw [if_pos h2]
    intro acts h
    try dsimp only at h
    repeat' split at h
    all_goals (injection h with h1; subst h1; rfl)
  rw [if_neg h2]
  by_cases h3 : (m == strOf "stepinterrupted" || m == strOf "step_interrupted" || m == strOf "step/interrupted") = true
  · rw [if_pos h3]
    intro acts h
    try dsimp only at h
    repeat' split at h
    all_goals (injection h with h1; subst h1; rfl)
  rw [if_neg h3]
  by_cases h4 : (m == strOf "compactionbegin" || m == strOf "compaction_begin" || m == strOf "compaction/begin") = true
  · rw [if_pos h4]
    intro acts h
    try dsimp only at h
    repeat' split at h
    all_goals (injection h with h1; subst h1; rfl)
  rw [if_neg h4]
  by_cases h5 : (m == strOf "compactionend" || m == strOf "compaction_end" || m == strOf "compaction/end") = true
  · rw [if_pos h5]
    intro acts h
    try dsimp only at h
    repeat' split at h
    all_goals (injection h with h1; subst h1; rfl)
  rw [if_neg h5]
  by_cases h6 : (m == strOf "statusupdate" || m == strOf "status_update" || m == strOf "status/update") = true
  · rw [if_pos h6]
    intro acts h
    try dsimp only at h
    repeat' split at h
    all_goals (injection h with h1; subst h1; rfl)
  rw [if_neg h6]
  by_cases h7 : (m == strOf "toolcall" || m == strOf "tool_call" || m == strOf "tool/call") = true
  · rw [if_pos h7]
    intro acts h
    try dsimp only at h
    repeat' split at h
    all_goals (injection h with h1; subst h1; rfl)
  rw [if_neg h7]
  by_cases h8 : (m == strOf "toolcallpart" || m == strOf "tool_call_part" || m == strOf "tool/call/part") = true
  · rw [if_pos h8]
    intro acts h
    try dsimp only at h
    repeat' split at h
    all_goals (injection h with h1; subst h1; rfl)
  rw [if_neg h8]
  by_cases h9 : (m == strOf "toolresult" || m == strOf "tool_result" || m == strOf "tool/result") = true
  · rw [if_pos h9]
    intro acts h
    try dsimp only at h
    repeat' split at h
    all_goals (injection h with h1; subst h1; rfl)
  rw [if_neg h9]
  by_cases h10 : (m == strOf "approvalresponse" || m == strOf "approval_response" || m == strOf "approval/response") = true
  · rw [if_pos h10]
    intro acts h
    try dsimp only at h
    repeat' split at h
    all_goals (injection h with h1; subst h1; rfl)
  rw [if_neg h10]
  by_cases h11 : (m == strOf "subagentevent" || m == strOf "subagent_event" || m == strOf "subagent/event") = true
  · rw [if_pos h11]
    intro acts h
    try dsimp only at h
    repeat' split at h
    all_goals (injection h with h1; subst h1; rfl)
  rw [if_neg h11]
  intro acts h
  exact Option.noConfusion h

theorem kimi_requestStep_ok (cfg : Kimi.Config) (oracle : Str → Kimi.PermOutcome)
    (st : Kimi.State) (obj : J) (params : J) :
    stepResOk (Kimi.requestStep cfg oracle st obj params) := by
  unfold Kimi.requestStep
  try dsimp only
  repeat' split
  all_goals rfl

theorem kimi_contentStep_ok (home : Str) (st : Kimi.State) (params : J) :
    stepResOk (Kimi.contentStep home st params) := by
  unfold Kimi.contentStep
  try dsimp only
  repeat' split
  all_goals rfl

theorem kimi_turnEndStep_ok (st : Kimi.State) (params : J) :
    stepResOk (Kimi.turnEndStep st params) := by
  unfold Kimi.turnEndStep
  try dsimp only
  repeat' split
  all_goals exact ⟨_, rfl, rfl⟩

theorem kimi_rpcResultStep_ok (st : Kimi.State) (obj : J) :
    stepResOk (Kimi.rpcResultStep st obj) := by
  unfold Kimi.rpcResultStep
  try dsimp only
  repeat' split
  all_goals first
    | rfl
    | exact ⟨_, rfl, rfl⟩

theorem kimi_rpcErrorStep_ok (st : Kimi.State) (obj : J) :
    stepResOk (Kimi.rpcErrorStep st obj) := by
  unfold Kimi.rpcErrorStep
  try dsimp only
  repeat' split
  all_goals rfl

theorem kimi_textLineStep_ok (st : Kimi.State) (obj : J) :
    stepResOk (Kimi.textLineStep st obj) := by
  unfold Kimi.textLineStep
  try dsimp only
  repeat' split
  all_goals rfl

theorem kimi_assistantStep_ok (home : Str) (st : Kimi.State) (obj : J) :
    stepResOk (Kimi.assistantStep home st obj) := by
  unfold Kimi.assistantStep
  exact noTC_kimi_assistant home _

theorem kimi_fallbackEndStep_ok (st : Kimi.State) (obj : J) :
    stepResOk (Kimi.fallbackEndStep st obj) := by
  unfold Kimi.fallbackEndStep
  try dsimp only
  repeat' split
  all_goals first
    | rfl
    | exact ⟨_, rfl, rfl⟩

theorem kimi_step_ok (home : Str) (cfg : Kimi.Config)
    (oracle : Str → Kimi.PermOutcome) (st : Kimi.State) (obj : J) :
    stepResOk (Kimi.step home cfg oracle st obj) := by
  unfold Kimi.step
  dsimp only
  repeat' split
  all_goals first
    | exact kimi_requestStep_ok cfg oracle st obj _
    | exact noTC_kimiInfoActs home _ _ _ (by assumption)
    | exact kimi_contentStep_ok home st _
    | exact kimi_turnEndStep_ok st _
    | exact kimi_rpcResultStep_ok st obj
    | exact kimi_rpcErrorStep_ok st obj
    | exact kimi_textLineStep_ok st obj
    | exact kimi_assistantStep_ok home st obj
    | exact kimi_fallbackEndStep_ok st obj

theorem kimi_readLoop_tc (home : Str) (cfg : Kimi.Config)
    (oracle : Str → Kimi.PermOutcome) :
    ∀ (lines : List J) (st : Kimi.State),
    ((Kimi.readLoop home cfg oracle st lines).2 = .completed →
      singleTrailingTC
        (Kimi.actEvents (Kimi.readLoop home cfg oracle st lines).1)) ∧
    (∀ r, (Kimi.readLoop home cfg oracle st lines).2 = .failed r →
      hasTC (Kimi.actEvents (Kimi.readLoop home cfg oracle st lines).1) = false) := by
  intro lines
  induction lines with
  | nil =>
    intro st
    simp only [Kimi.readLoop, Kimi.eofResult]
    by_cases h1 : st.rpc_error.isSome = true
    · rw [if_pos h1]
      exact ⟨fun h => by simp at h, fun r h => rfl⟩
    rw [if_neg h1]
    by_cases h2 : (!st.streamed_text.isEmpty) = true
    · rw [if_pos h2]
      exact ⟨fun h => ⟨[], _, rfl, rfl, rfl⟩, fun r h => by simp at h⟩
    · rw [if_neg h2]
      exact ⟨fun h => by simp at h, fun r h => rfl⟩
  | cons l rest ih =>
    intro st
    have hok := kimi_step_ok home cfg oracle st l
    simp only [Kimi.readLoop]
    cases hstep : Kimi.step home cfg oracle st l with
    | next acts st' =>
      rw [hstep] at hok
      refine ⟨fun h => ?_, fun r h => ?_⟩
      · rw [actEvents_append]
        exact singleTrailingTC_append_left hok ((ih st').1 h)
      · rw [actEvents_append, hasTC_append, hok, (ih st').2 r h]
        rfl
    | finish acts st' =>
      rw [hstep] at hok
      obtain ⟨e, he, htc⟩ := hok
      refine ⟨fun h => ⟨[], e, by rw [he]; rfl, rfl, htc⟩, fun r h => ?_⟩
      simp at h
    | raise acts reason =>
      rw [hstep] at hok
      exact ⟨fun h => by simp at h, fun r h => hok⟩
    | hangs acts =>
      rw [hstep] at hok
      exact ⟨fun h => by simp at h, fun r h => hok⟩

/-- A content-part line streaming the text "Hi", with no completion
marker. -/
def c2line : J :=
  .jobj [(strOf "method", .js (strOf "contentPart")),
         (strOf "params", .jobj [(strOf "part", .jobj
           [(strOf "type", .js (strOf "text")),
            (strOf "text", .js (strOf "Hi"))])])]

/-- C2 counterexample: the Kimi adapter reaches EOF without ever seeing a
completion marker, yet read_events synthesizes a TurnComplete from the
streamed text and reports a completed turn instead of raising. -/
theorem C2_counterexample :
    Kimi.read_events [] ⟨strOf "ask", true⟩ (fun _ => .timeout) {} [c2line] =
      ([.emit (.textDelta (strOf "Hi")),
        .emit (.turnComplete (strOf "Hi") none true none)], .completed) := rfl

/-- C2 (amended): for each adapter a completed read_events yields exactly
one TurnComplete, as its final event, and a failed read_events yields
none; Claude and Codex raise when stdout closes before a completion
marker, as does Kimi when nothing was streamed; but a Kimi EOF with
streamed text and no pending RPC error synthesizes a completed turn
rather than raising. -/
theorem C2_read_events (home : Str) (cfg : Kimi.Config)
    (oracle : Str → Kimi.PermOutcome) :
    (∀ (st : Claude.State) (lines : List J),
      ((Claude.read_events home st lines).2 = .completed →
        singleTrailingTC (Claude.read_events home st lines).1) ∧
      (∀ r, (Claude.read_events home st lines).2 = .failed r →
        hasTC (Claude.read_events home st lines).1 = false)) ∧
    (∀ (st : Codex.State) (lines : List J),
      ((Codex.read_events home st lines).2 = .completed →
        singleTrailingTC (Codex.read_events home st lines).1) ∧
      (∀ r, (Codex.read_events home st lines).2 = .failed r →
        hasTC (Codex.read_events home st lines).1 = false)) ∧
    (∀ (st : Kimi.State) (lines : List J),
      ((Kimi.read_events home cfg oracle st lines).2 = .completed →
        singleTrailingTC
          (Kimi.actEvents (Kimi.read_events home cfg oracle st lines).1)) ∧
      (∀ r, (Kimi.read_events home cfg oracle st lines).2 = .failed r →
        hasTC (Kimi.actEvents
          (Kimi.read_events home cfg oracle st lines).1) = false)) ∧
    (∀ st : Claude.State, Claude.read_events home st [] =
      ([], .failed (strOf "claude process ended before result event"))) ∧
    (∀ st : Codex.State, Codex.read_events home st [] =
      ([], .failed (strOf "codex process ended before turn/completed"))) ∧
    (∀ st : Kimi.State, Kimi.read_events home cfg oracle st [] =
      ([], .failed (strOf "kimi process ended before TurnEnd"))) ∧
    (∀ st : Kimi.State, st.rpc_error = none → st.streamed_text ≠ [] →
      Kimi.eofResult st =
        ([.emit (.turnComplete st.streamed_text.flatten st.session_id true none)],
         .completed)) := by
  refine ⟨?_, ?_, ?_, fun st => rfl, fun st => rfl, fun st => rfl, ?_⟩
  · intro st lines
    exact claude_readLoop_tc home lines (Claude.resetTurn st)
  · intro st lines
    exact codex_readLoop_tc home lines st
  · intro st lines
    exact kimi_readLoop_tc home cfg oracle lines
      { st with streamed_text := [], rpc_error := none }
  · intro st h1 h2
    have he : st.streamed_text.isEmpty = false := by
      cases hx : st.streamed_text with
      | nil => exact absurd hx h2
      | cons a l => rfl
    simp [Kimi.eofResult, h1, he]

theorem C2_read_events_witness :
    Kimi.eofResult ⟨none, none, [strOf "Hi"], none⟩ =
      ([.emit (.turnComplete (strOf "Hi") none true none)], .completed) :=
  (C2_read_events [] ⟨strOf "ask", true⟩ (fun _ => .timeout)).2.2.2.2.2.2
    ⟨none, none, [strOf "Hi"], none⟩ rfl (by decide)

theorem foldl_history {α : Type} (f : Room.RState → α → Room.RState)
    (hf : ∀ s x, (f s x).history = s.history) :
    ∀ (l : List α) (s : Room.RState), (l.foldl f s).history = s.history := by
  intro l
  induction l with
  | nil => intro s; rfl
  | cons x xs ih => intro s; rw [List.foldl_cons, ih, hf]

theorem enqueue_history (st : Room.RState) (s msg : Str) (r : Option Nat)
    (rec : List Str) :
    (Room.enqueueDelivery st s msg r rec).history = st.history := by
  unfold Room.enqueueDelivery
  split
  · rfl
  · rw [foldl_history _ (fun s x => by split <;> rfl)]

theorem trySignal_history (st : Room.RState) :
    (Room.trySignal st).history = st.history := by
  unfold Room.trySignal
  repeat' split
  all_goals rfl

theorem processResponse_history (st : Room.RState) (a r : Str) (mr now : Nat) :
    (Room.processResponse st a r mr now).history = st.history ++
      [⟨a, if Router.detect_pass r then Router.passTok
           else if (Router.extract_shareable r).isEmpty then Router.PLACEHOLDER
           else Router.extract_shareable r, some mr⟩] := by
  unfold Room.processResponse
  by_cases hp : Router.detect_pass r = true
  · rw [if_pos hp, if_pos hp]
  · rw [if_neg hp, if_neg hp]
    try dsimp only
    repeat' split
    all_goals first
      | (rw [enqueue_history]; try rfl)
      | rfl

theorem dm_history (st : Room.RState) (n t : Str) :
    (Room.dmInject st n t).history = st.history := by
  unfold Room.dmInject
  split
  · rfl
  · rw [enqueue_history]
    split <;> rfl

theorem addAgent_history (st : Room.RState) (n : Str) :
    (Room.addAgent st n).history = st.history := by
  unfold Room.addAgent
  dsimp only
  repeat' split
  all_goals rfl

theorem agentStep_history {st st' : Room.RState} {a : Str} {resp : Option Str}
    {now : Nat} (h : Room.agentStep st a resp now = some st') :
    st'.history = st.history ∨
    (∃ mr, st'.history = st.history ++ [⟨a, Router.passTok, some mr⟩]) ∨
    (∃ mr r, st'.history = st.history ++
      [⟨a, if (Router.extract_shareable r).isEmpty then Router.PLACEHOLDER
           else Router.extract_shareable r, some mr⟩]) := by
  unfold Room.agentStep at h
  split at h
  · exact Option.noConfusion h
  · split at h
    · exact Option.noConfusion h
    · dsimp only at h
      have hfold : ∀ (bs : List Room.InboxItem) (s0 : Room.RState),
          (bs.foldl (fun st it =>
              { st with delivery_pending :=
                  (Room._ack_delivery st.delivery_pending it.delivery a
                    it.sender it.round).1 }) s0).history = s0.history :=
        foldl_history _ (fun s x => rfl)
      split at h
      · rename_i r
        injection h with h1
        subst h1
        rw [trySignal_history, processResponse_history]
        rw [show ∀ u : Room.RState, ({ u with
          agent_started := Room.setB u.agent_started a true } : Room.RState).history
          = u.history from fun u => rfl, hfold]
        by_cases hp : Router.detect_pass r = true
        · rw [if_pos hp]
          exact Or.inr (Or.inl ⟨_, rfl⟩)
        · rw [if_neg hp]
          exact Or.inr (Or.inr ⟨_, r, rfl⟩)
      · injection h with h1
        subst h1
        left
        rw [trySignal_history]
        rw [show ∀ u : Room.RState, ({ u with
          any_stopped := true,
          agent_passed := Room.setB u.agent_passed a false,
          agent_idle := Room.setB u.agent_idle a true } : Room.RState).history
          = u.history from fun u => rfl]
        rw [show ∀ u : Room.RState, ({ u with
          agent_started := Room.setB u.agent_started a true } : Room.RState).history
          = u.history from fun u => rfl]
        exact hfold _ _

theorem pumpRound_history {st st' : Room.RState}
    (h : Room.pumpRound st = some st') : st'.history = st.history := by
  unfold Room.pumpRound at h
  split at h
  · exact Option.noConfusion h
  · dsimp only at h
    split at h
    · injection h with h1; subst h1; rfl
    · injection h with h1; subst h1; rfl

theorem placeholder_extract : Router.extract_shareable [] = Router.PLACEHOLDER := by
  decide

/-- C1 (amended): every round-tagged history message a persistent session
stores is either exactly "[PASS]" or the extract_shareable output for some
response text — i.e. the pass token, the thinking-stripped joined share
contents, or "(private response withheld)" — never the raw unfiltered
response; the at-most-one-entry-per-agent-and-round half of the original
claim is false, since relayed shares let an agent respond, and store an
entry, several times within one round. -/
theorem C1_history_invariant {st : Room.RState} (hr : Room.Reach st) :
    ∀ m ∈ st.history, Room.OkMsg m := by
  induction hr with
  | init agents pre ip sr hok =>
    have hhist : (Room.initState agents pre ip sr).history =
        (match ip with
         | some p => pre ++ [⟨strOf "user", p, none⟩]
         | none => pre) := by
      unfold Room.initState
      dsimp only
      split
      · rw [show ∀ u : Room.RState, ({ u with
          round_has_activity := true } : Room.RState).history = u.history from
          fun u => rfl, enqueue_history]
      · rfl
    intro m hm
    rw [hhist] at hm
    cases ip with
    | some p =>
      rcases List.mem_append.mp hm with h1 | h2
      · exact hok m h1
      · simp at h2
        subst h2
        intro hx
        simp at hx
    | none => exact hok m hm
  | user text hr0 ih =>
    intro m hm
    unfold Room.userInject at hm
    dsimp only at hm
    rw [enqueue_history] at hm
    split at hm
    all_goals rcases List.mem_append.mp hm with h1 | h2
    all_goals first
      | exact ih m h1
      | (simp at h2; subst h2; intro hx; simp at hx)
  | system text hr0 ih =>
    intro m hm
    unfold Room.systemInject at hm
    dsimp only at hm
    rw [enqueue_history] at hm
    split at hm
    all_goals rcases List.mem_append.mp hm with h1 | h2
    all_goals first
      | exact ih m h1
      | (simp at h2; subst h2; intro hx; simp at hx)
  | dm name text hr0 ih =>
    intro m hm
    rw [dm_history] at hm
    exact ih m hm
  | step a resp now hr0 heq ih =>
    intro m hm
    rcases agentStep_history heq with h0 | ⟨mr, h1⟩ | ⟨mr, r, h2⟩
    · rw [h0] at hm
      exact ih m hm
    · rw [h1] at hm
      rcases List.mem_append.mp hm with ha | hb
      · exact ih m ha
      · simp at hb
        subst hb
        intro hx
        exact Or.inl rfl
    · rw [h2] at hm
      rcases List.mem_append.mp hm with ha | hb
      · exact ih m ha
      · simp at hb
        subst hb
        intro hx
        right
        by_cases he : Router.extract_shareable r = []
        · rw [if_pos he]
          exact ⟨[], placeholder_extract.symm⟩
        · rw [if_neg he]
          exact ⟨r, rfl⟩
  | pump hr0 heq ih =>
    intro m hm
    rw [pumpRound_history heq] at hm
    exact ih m hm
  | add name hfresh hr0 ih =>
    intro m hm
    rw [addAgent_history] at hm
    exact ih m hm
  | remove name hr0 ih =>
    intro m hm
    exact ih m hm

theorem C1_history_invariant_witness :
    Room.OkMsg ⟨strOf "user", strOf "go", none⟩ :=
  C1_history_invariant
    (Room.Reach.init [] [] (some (strOf "go")) 0
      (fun m hm => absurd hm (by simp)))
    ⟨strOf "user", strOf "go", none⟩ (by decide)

/-- The three share responses of the counterexample run. -/
def c1respB1 : Str := strOf "<Share>B1</Share>"

def c1respA1 : Str := strOf "<Share>A1</Share>"

def c1respB2 : Str := strOf "<Share>B2</Share>"

/-- A two-agent session: user message, then b shares, a shares back (the
share is relayed to b's inbox), and b answers the relay — all within
round 1. -/
def roomS0 : Room.RState := Room.initState [strOf "a", strOf "b"] [] none 0

def roomS1 : Room.RState := Room.userInject roomS0 (strOf "hi")

def roomS2 : Room.RState :=
  (Room.agentStep roomS1 (strOf "b") (some c1respB1) 10).getD roomS1

def roomS3 : Room.RState :=
  (Room.agentStep roomS2 (strOf "a") (some c1respA1) 11).getD roomS2

def roomS4 : Room.RState :=
  (Room.agentStep roomS3 (strOf "b") (some c1respB2) 12).getD roomS3

/-- C1 counterexample: a reachable state whose history holds two messages
with role b and round 1, refuting at-most-one-entry-per-(agent, round). -/
theorem C1_counterexample :
    Room.Reach roomS4 ∧
    (roomS4.history.filter (fun m =>
        m.role == strOf "b" && m.round == some 1)).length = 2 := by
  have h2 : Room.agentStep roomS1 (strOf "b") (some c1respB1) 10 = some roomS2 := by
    decide
  have h3 : Room.agentStep roomS2 (strOf "a") (some c1respA1) 11 = some roomS3 := by
    decide
  have h4 : Room.agentStep roomS3 (strOf "b") (some c1respB2) 12 = some roomS4 := by
    decide
  refine ⟨?_, by decide⟩
  exact Room.Reach.step (strOf "b") (some c1respB2) 12
    (Room.Reach.step (strOf "a") (some c1respA1) 11
      (Room.Reach.step (strOf "b") (some c1respB1) 10
        (Room.Reach.user (strOf "hi")
          (Room.Reach.init [strOf "a", strOf "b"] [] none 0
            (fun m hm => absurd hm (by simp))))
        h2) h3) h4
